import Mathlib

/-!
Verification development for the `sqlalchemy-tenant-wiper` core
(`src/sqlalchemy_tenant_wiper/core.py`).

The Python module is shallowly embedded:

* SQLAlchemy tables become `TableDef` (name, column names, primary-key
  column names); `metadata.sorted_tables` becomes `Metadata.sorted_tables`
  (a list in the schema's stable topological order); the declarative
  `Base` becomes `DeclarativeBase` (metadata plus a model registry mapping
  a table name to its mapper's column set).
* Rows are association lists from column name to integer value; a database
  maps table names to row lists.  A session carries a committed state
  (`Session.base`) and an in-transaction state (`Session.db`); commit sets
  the committed state to the current one and rollback restores it.
* Tenant filters are opaque Python callables.  They are embedded as
  `TenantFilter`: either a well-formed predicate given by a small boolean
  expression language `FilterExpr` over the row's columns, or a callable
  that raises as soon as it is invoked — `brokenAttrKey` raises
  `AttributeError`/`KeyError`, `brokenOther` raises any other exception.
  Invoking a well-formed filter on the permissive shadow recorder
  (`ColumnRecorder`) records exactly `FilterExpr.cols`; invoking it on a
  real table raises `AttributeError` iff a referenced column is missing
  from that table, and otherwise yields the predicate.
* Python exceptions become `Except`; `ValueError`s raised by the
  validation layer become the structured `VError`, exceptions escaping
  `TenantDeleter.delete` become `DeleteError`.  Backend execution
  failures are injected through an oracle `failAt : Nat → Bool` consulted
  at each executed statement, mirroring a fault injected at the
  SQLAlchemy session.
* `str.split(sep)` is reimplemented as `pySplit` (Python semantics:
  splitting the empty string yields `[""]`, separators do not overlap,
  scanning is left to right), because `String.splitOn` does not reduce
  in the kernel.
-/

deriving instance DecidableEq for Except

/-- Integer column values (tenant ids, primary keys, ...). -/
abbrev Value := Int

/-- A row is an association list from column name to value. -/
abbrev Row := List (String × Value)

/-- Column lookup in a row; `none` plays the role of SQL NULL / absent column. -/
def rowGet (r : Row) (c : String) : Option Value :=
  (r.find? (fun p => p.1 == c)).map (·.2)

/-- A primary-key result tuple: the values of the pk columns, in order.
For a single-column key this is a one-element list (the scalar case in the
source); for composite keys it is the tuple case. -/
abbrev PKTuple := List (Option Value)

/-- A database state: table name to list of rows. -/
abbrev Database := List (String × List Row)

/-- Rows of the named table. -/
def dbRows (db : Database) (t : String) : List Row :=
  ((db.find? (fun p => p.1 == t)).map (·.2)).getD []

/-- A SQLAlchemy `Table`: name, column names, primary-key column names. -/
structure TableDef where
  name : String
  columns : List String
  primary_key : List String
deriving DecidableEq, Repr

/-- The schema metadata: `metadata.sorted_tables`, in FK-topological order.
`metadata.tables` membership is name lookup in this list. -/
structure Metadata where
  sorted_tables : List TableDef
deriving DecidableEq, Repr

/-- Lookup in `metadata.tables` by table name. -/
def Metadata.tablesFind? (m : Metadata) (n : String) : Option TableDef :=
  m.sorted_tables.find? (fun t => t.name == n)

/-- The declarative `Base`: schema metadata plus the model registry, which
maps a model's `__tablename__` to its mapper's column key set (the mapper
set can be wider than the raw table columns, e.g. under joined-table
inheritance). -/
structure DeclarativeBase where
  metadata : Metadata
  registry : List (String × List String)
deriving DecidableEq, Repr

/-- A deep embedding of the boolean row predicates tenant filters build
(`t.c.tenant_id == v`, `t.c.x.in_(vs)`, conjunction, disjunction). -/
inductive FilterExpr where
  | eqConst (col : String) (v : Value)
  | inList (col : String) (vs : List Value)
  | orE (a b : FilterExpr)
  | andE (a b : FilterExpr)
deriving DecidableEq, Repr

/-- Columns accessed by a filter expression: what the `ColumnRecorder`
shadow object records when the filter is invoked against it. -/
def FilterExpr.cols : FilterExpr → List String
  | .eqConst c _ => [c]
  | .inList c _ => [c]
  | .orE a b => a.cols ++ b.cols
  | .andE a b => a.cols ++ b.cols

/-- Evaluation of a filter expression against a row (SQL semantics: a
comparison with a NULL/absent column is not satisfied). -/
def FilterExpr.eval : FilterExpr → Row → Bool
  | .eqConst c v, r => rowGet r c == some v
  | .inList c vs, r => match rowGet r c with
      | some v => vs.contains v
      | none => false
  | .orE a b, r => a.eval r || b.eval r
  | .andE a b, r => a.eval r && b.eval r

/-- A tenant filter: an opaque callable from a table to a predicate.
`wellFormed e` accesses exactly `e.cols` and yields `e`'s predicate;
`brokenAttrKey` raises `AttributeError`/`KeyError` whenever invoked (on the
shadow recorder as well as on a real table); `brokenOther` raises an
exception of any other class whenever invoked. -/
inductive TenantFilter where
  | wellFormed (e : FilterExpr)
  | brokenAttrKey
  | brokenOther
deriving DecidableEq, Repr

/-! ## Python `str.split` (`pySplit`) -/

/-- Fuel-driven splitter over character lists; the fuel is always
instantiated with the length of the input, which suffices. -/
def splitCharsAux (sep : List Char) : Nat → List Char → List (List Char)
  | _, [] => [[]]
  | 0, s => [s]
  | fuel+1, c :: rest =>
    if sep.isPrefixOf (c :: rest) ∧ sep ≠ [] then
      [] :: splitCharsAux sep fuel ((c :: rest).drop sep.length)
    else
      match splitCharsAux sep fuel rest with
      | [] => [[c]]
      | seg :: segs => (c :: seg) :: segs

/-- Python's `s.split(sep)` for a non-empty separator: non-overlapping
occurrences, scanned left to right; `"".split(sep) == [""]`. -/
def pySplit (sep : String) (s : String) : List String :=
  (splitCharsAux sep.toList s.toList.length s.toList).map List.asString

/-! ## `_parse_join_path` -/

/-- The exceptions `_parse_join_path` raises (`ValueError`s in the source,
distinguished here by their message). -/
inductive ParseErr where
  | malformedPath
  | incompleteStep
  | invalidJoinCondition
deriving DecidableEq, Repr

/-- One join step of a parsed path (the dict the source builds per step). -/
structure JoinStep where
  from_table : String
  from_key : String
  to_table : String
  to_key : String
deriving DecidableEq, Repr

/-- A parsed join path (the dict `_parse_join_path` returns). -/
structure JoinPath where
  start_table : String
  final_table : String
  steps : List JoinStep
deriving DecidableEq, Repr

/-- The `(condition, to_table)` pair walk of `_parse_join_path`: from the
current table, consume alternating condition and table segments, splitting
each condition on `=` (exactly one `=` required, otherwise
`InvalidJoinCondition`); the dangling-segment case is the source's
"Incomplete join step" error (unreachable when the segment count is odd).
Returns the steps and the final table reached. -/
def parseSteps (from_table : String) : List String → Except ParseErr (List JoinStep × String)
  | [] => .ok ([], from_table)
  | [_] => .error .incompleteStep
  | cond :: to_table :: rest =>
    match pySplit "=" cond with
    | [fk, tk] =>
      match parseSteps to_table rest with
      | .ok (steps, fin) => .ok (⟨from_table, fk, to_table, tk⟩ :: steps, fin)
      | .error e => .error e
    | _ => .error .invalidJoinCondition

/-- `_parse_join_path` (core.py:172-211): split on `__`, require an odd
number of parts, then walk `(condition, table)` pairs. -/
def _parse_join_path (path : String) : Except ParseErr JoinPath :=
  let parts := pySplit "__" path
  if parts.length % 2 == 0 then .error .malformedPath
  else
    match parts with
    | [] => .error .malformedPath
    | st :: rest =>
      match parseSteps st rest with
      | .ok (steps, fin) => .ok ⟨st, fin, steps⟩
      | .error e => .error e

/-! ## Tenant-filter probe and validation errors

Error message strings are kept as deterministic functions of the offending
data; the exact punctuation of the Python f-strings is abstracted. -/

/-- The `ValueError`s (and one uncaught `KeyError`) the validation layer
can raise, structured by kind:
`filterSyntax` is the "Filter syntax error" `ValueError` raised by
`_can_apply_tenant_filter` when the predicate raises against the shadow
recorder; `relationshipErrors` and `uncoveredTables` are the two combined
`ValueError`s `validate` raises; `pythonKeyError` models the uncaught
`KeyError` from `metadata_tables[final_table_name]` when a zero-step
path names a table absent from the metadata. -/
inductive VError where
  | filterSyntax
  | pythonKeyError (name : String)
  | relationshipErrors (errs : List String)
  | uncoveredTables (tables : List String)
deriving DecidableEq, Repr

def parseErrMsg : ParseErr → String
  | .malformedPath => "Malformed join path: Must have an odd number of parts."
  | .incompleteStep => "Incomplete join step in path"
  | .invalidJoinCondition => "Invalid join condition format. Expected from_key=to_key."

def tableMissingMsg (n : String) : String :=
  s!"Table {n} does not exist in metadata"

def colMissingMsg (k t : String) : String :=
  s!"Column {k} does not exist in table {t}"

def conflictMsg (t : String) : String :=
  s!"Configuration Error: Table {t} is listed in both excluded_tables and relationships."

def terminalMsg (ft p : String) : String :=
  s!"Final table {ft} in path {p} cannot be filtered by any tenant filters."

def pathErrMsg (src p e : String) : String :=
  s!"Relationship {src} path {p}: {e}"

/-- `_can_apply_tenant_filter` (core.py:248-291): invoke the filter on the
shadow recorder — if it raises, that is an irrecoverable filter syntax
error (`ValueError`); otherwise, if some recorded column is missing from
the real table, the filter is not applicable (`(false, cols)`); otherwise
invoke it on the real table and compile a dummy query (`(true, cols)`;
a compile failure of a well-formed expression is not modelled). -/
def _can_apply_tenant_filter (table : TableDef) (f : TenantFilter) :
    Except VError (Bool × List String) :=
  match f with
  | .brokenAttrKey => .error .filterSyntax
  | .brokenOther => .error .filterSyntax
  | .wellFormed e =>
    if e.cols.all (fun c => table.columns.contains c) then .ok (true, e.cols)
    else .ok (false, e.cols)

/-- `TenantWiperConfig._has_tenant_column` (core.py:159-169): true when
some tenant filter applies to the table directly; a `ValueError` from the
probe is re-raised, not swallowed. -/
def _has_tenant_column (tenant_filters : List TenantFilter) (table : TableDef) :
    Except VError Bool :=
  match tenant_filters with
  | [] => .ok false
  | f :: fs =>
    match _can_apply_tenant_filter table f with
    | .error e => .error e
    | .ok (true, _) => .ok true
    | .ok (false, _) => _has_tenant_column fs table

/-- `_get_model_class_for_table` (core.py:214-226), fused with the mapper
column lookup of its only caller: the mapper's column key set for the
model registered under this table name, or `none` when there is no base
(`base=None`) or no registered model. -/
def _get_model_class_for_table (table_name : String) (base : Option DeclarativeBase) :
    Option (List String) :=
  match base with
  | none => none
  | some b => (b.registry.find? (fun p => p.1 == table_name)).map (·.2)

/-- `_get_all_columns_for_table` (core.py:229-245): mapper columns of the
registered model class when one exists, else the raw metadata columns,
else the empty set. -/
def _get_all_columns_for_table (table_name : String) (metadata : Metadata)
    (base : Option DeclarativeBase) : List String :=
  match _get_model_class_for_table table_name base with
  | some cols => cols
  | none =>
    match metadata.tablesFind? table_name with
    | some t => t.columns
    | none => []

/-- The two table-existence checks of one step (core.py:317-319), errors
in source order (`from_table` first). -/
def stepTableErrs (metadata : Metadata) (s : JoinStep) : List String :=
  (if (metadata.tablesFind? s.from_table).isNone then [tableMissingMsg s.from_table] else []) ++
  (if (metadata.tablesFind? s.to_table).isNone then [tableMissingMsg s.to_table] else [])

/-- The two column-existence checks of one step (core.py:323-330).  Note
the source passes `base=None` here, so only raw metadata columns are ever
consulted. -/
def stepColErrs (metadata : Metadata) (s : JoinStep) : List String :=
  (if (_get_all_columns_for_table s.from_table metadata none).contains s.from_key then []
   else [colMissingMsg s.from_key s.from_table]) ++
  (if (_get_all_columns_for_table s.to_table metadata none).contains s.to_key then []
   else [colMissingMsg s.to_key s.to_table])

/-- One iteration of the step loop (core.py:312-330): table checks always
run; column checks run only while the accumulated error list is still
empty (the `if errors: continue` guard). -/
def stepCheck (metadata : Metadata) (errors : List String) (s : JoinStep) : List String :=
  let errors' := errors ++ stepTableErrs metadata s
  if errors'.isEmpty then errors' ++ stepColErrs metadata s else errors'

/-- The accumulated structural errors of a parsed path's steps. -/
def stepErrors (metadata : Metadata) (steps : List JoinStep) : List String :=
  steps.foldl (stepCheck metadata) []

/-- The terminal-filterability loop (core.py:340-349): probe each filter
against the final table; a `ValueError` re-raises, a first applicable
filter wins. -/
def terminalLoop (ft : TableDef) : List TenantFilter → Except VError Bool
  | [] => .ok false
  | f :: fs =>
    match _can_apply_tenant_filter ft f with
    | .error e => .error e
    | .ok (true, _) => .ok true
    | .ok (false, _) => terminalLoop ft fs

/-- `_validate_relationship_path` (core.py:294-361): empty paths are
rejected up front; parse failures become one returned error; then step
checks accumulate; then, if there are no errors so far and the filter
list is non-empty, the final table must admit some tenant filter. -/
def _validate_relationship_path (p : String) (metadata : Metadata)
    (tenant_filters : List TenantFilter) : Except VError (List String) :=
  if p == "" then .ok ["Empty relationship path provided"]
  else
    match _parse_join_path p with
    | .error e => .ok [parseErrMsg e]
    | .ok parsed =>
      let errors := stepErrors metadata parsed.steps
      if errors.isEmpty && !tenant_filters.isEmpty then
        match metadata.tablesFind? parsed.final_table with
        | none => .error (.pythonKeyError parsed.final_table)
        | some ft =>
          match terminalLoop ft tenant_filters with
          | .error e => .error e
          | .ok true => .ok errors
          | .ok false => .ok (errors ++ [terminalMsg parsed.final_table p])
      else .ok errors

/-! ## `TenantWiperConfig` -/

/-- The configuration value object.  Field defaults mirror the Python
constructor (`tenant_filters=None` becomes `[]`, etc.; `batch_size`
defaults to `500`).  `relationships` is the stored `tenant_join_paths`
argument. -/
structure TenantWiperConfig where
  base : DeclarativeBase
  tenant_filters : List TenantFilter := []
  relationships : List String := []
  excluded_tables : List String := []
  batch_size : Option Nat := some 500
deriving DecidableEq, Repr

/-- Insert one path under its source table, preserving dict insertion
order and per-key path order. -/
def addRel (d : List (String × List String)) (src path : String) :
    List (String × List String) :=
  if (d.find? (fun p => p.1 == src)).isSome then
    d.map (fun p => if p.1 == src then (p.1, p.2 ++ [path]) else p)
  else d ++ [(src, [path])]

/-- `TenantWiperConfig._parse_relationships` (core.py:82-90): group the
path strings by their leading segment (`split('__', 1)[0]`). -/
def _parse_relationships (rels : List String) : List (String × List String) :=
  rels.foldl (fun d r => addRel d ((pySplit "__" r).headD "") r) []

/-- The parsed `_relationship_dict` of a configuration. -/
def TenantWiperConfig.relationshipDict (cfg : TenantWiperConfig) :
    List (String × List String) :=
  _parse_relationships cfg.relationships

/-- Dict lookup (`in` / `[]` on `_relationship_dict`). -/
def dictFind? (d : List (String × List String)) (k : String) : Option (List String) :=
  (d.find? (fun p => p.1 == k)).map (·.2)

/-- The relationship-loop body for one dict entry (core.py:101-116): an
exclusion conflict skips the entry with one error; otherwise every path
of the entry is validated and its errors are prefixed with the owning
table and path. -/
def relErrsForEntry (cfg : TenantWiperConfig) (entry : String × List String) :
    Except VError (List String) :=
  if cfg.excluded_tables.contains entry.1 then .ok [conflictMsg entry.1]
  else
    entry.2.foldlM (fun acc p => do
      let errs ← _validate_relationship_path p cfg.base.metadata cfg.tenant_filters
      pure (acc ++ errs.map (fun e => pathErrMsg entry.1 p e))) []

/-- The whole relationship validation loop of `validate` (core.py:100-116):
accumulated errors, or a re-raised filter syntax error. -/
def relLoopResult (cfg : TenantWiperConfig) : Except VError (List String) :=
  cfg.relationshipDict.foldlM (fun acc entry => do
    let errs ← relErrsForEntry cfg entry
    pure (acc ++ errs)) []

/-- One iteration of the coverage sweep (core.py:126-144): skip excluded
tables; probe direct filterability (re-raising any filter syntax error);
append the table name to the uncovered list when it has neither a direct
filter nor a relationship entry. -/
def sweepStep (cfg : TenantWiperConfig) (acc : List String) (t : TableDef) :
    Except VError (List String) :=
  if cfg.excluded_tables.contains t.name then .ok acc
  else
    match _has_tenant_column cfg.tenant_filters t with
    | .error e => .error e
    | .ok has =>
      if !has && (dictFind? cfg.relationshipDict t.name).isNone then .ok (acc ++ [t.name])
      else .ok acc

/-- The coverage sweep of `validate` (core.py:121-144): iterate the sorted
tables, skip excluded ones, and collect every table with neither a direct
tenant filter nor a relationship entry. -/
def coverageSweep (cfg : TenantWiperConfig) : Except VError (List String) :=
  cfg.base.metadata.sorted_tables.foldlM (sweepStep cfg) []

/-- Decidable per-table uncoveredness used to characterise the sweep: a
non-excluded table whose probe cleanly reports no direct filter and that
has no relationship entry. -/
def notCovered (cfg : TenantWiperConfig) (t : TableDef) : Bool :=
  !cfg.excluded_tables.contains t.name
    && (match _has_tenant_column cfg.tenant_filters t with
        | .ok false => true
        | _ => false)
    && (dictFind? cfg.relationshipDict t.name).isNone

/-- `TenantWiperConfig.validate` (core.py:93-157): relationship-path
validation first (one combined `ValueError` if any errors), then the
table-coverage sweep (one combined `ValueError` listing every uncovered
table); filter syntax errors propagate immediately from either stage. -/
def TenantWiperConfig.validate (cfg : TenantWiperConfig) : Except VError Unit := do
  let relErrs ← relLoopResult cfg
  if relErrs.isEmpty then do
    let uncovered ← coverageSweep cfg
    if uncovered.isEmpty then .ok () else .error (.uncoveredTables uncovered)
  else .error (.relationshipErrors relErrs)

/-! ## `TenantDeleter`: delete-time filter application -/

/-- Outcome of invoking a tenant filter on a real table at deletion time:
the predicate expression, or the exception class it raises
(`AttributeError`/`KeyError` versus anything else). -/
inductive ApplyResult where
  | applied (e : FilterExpr)
  | attrKeyErr
  | otherErr
deriving DecidableEq, Repr

/-- `tenant_filter(table)` on a real table: a broken filter raises its
exception; a well-formed filter raises `AttributeError` iff it accesses a
column the table lacks, and otherwise yields its predicate. -/
def applyFilterReal (f : TenantFilter) (t : TableDef) : ApplyResult :=
  match f with
  | .brokenAttrKey => .attrKeyErr
  | .brokenOther => .otherErr
  | .wellFormed e =>
    if e.cols.all (fun c => t.columns.contains c) then .applied e else .attrKeyErr

/-- The exceptions that can escape `TenantDeleter.delete`. -/
inductive DeleteError where
  | missingPrimaryKey (table : String)
  | uncaughtFilterException
  | pythonKeyError (name : String)
  | noQueryForTable (table : String)
  | executionError
deriving DecidableEq, Repr

/-- The applicable-filter gathering loop of `_build_pk_collection_query`,
used both for the table itself (core.py:394-402) and for a path's final
table (core.py:445-452): `AttributeError`/`KeyError` is caught and the
filter skipped; any other exception propagates. -/
def applicableFilters (tenant_filters : List TenantFilter) (t : TableDef) :
    Except DeleteError (List FilterExpr) :=
  tenant_filters.foldlM (fun acc f =>
    match applyFilterReal f t with
    | .applied e => pure (acc ++ [e])
    | .attrKeyErr => pure acc
    | .otherErr => .error .uncaughtFilterException) []

/-! ## PK-collection queries and their semantics -/

/-- A select of the primary-key columns of `table`, joined through `steps`
in order, filtered by the disjunction of `whereOr` (always non-empty in
built queries; a singleton is the source's bare `where(f)`). -/
structure SelectQ where
  table : String
  pk_cols : List String
  steps : List JoinStep
  whereOr : List FilterExpr
deriving DecidableEq, Repr

/-- A built PK-collection query: one select, or the source's
`path_queries[0].union(*path_queries[1:])`. -/
inductive PKQuery where
  | single (q : SelectQ)
  | unionQ (first : SelectQ) (rest : List SelectQ)
deriving DecidableEq, Repr

/-- The `self.metadata.tables[...]` lookups performed while building the
joins of one path (core.py:435-436); a missing table is an uncaught
`KeyError`. -/
def checkStepTables (metadata : Metadata) (steps : List JoinStep) : Except DeleteError Unit :=
  steps.foldlM (fun _ s =>
    if (metadata.tablesFind? s.from_table).isNone then .error (.pythonKeyError s.from_table)
    else if (metadata.tablesFind? s.to_table).isNone then .error (.pythonKeyError s.to_table)
    else pure ()) ()

/-- One iteration of the path loop in `_build_pk_collection_query`
(core.py:418-460): unparseable paths and paths whose start table does not
match are skipped with a log entry; join-building looks up each step
table (`KeyError` on absence) and the final table; a path whose final
table admits no filter is skipped with a log entry; otherwise the path's
select is appended. -/
def pathLoopStep (cfg : TenantWiperConfig) (table : TableDef)
    (acc : List SelectQ) (p : String) : Except DeleteError (List SelectQ) :=
  match _parse_join_path p with
  | .error _ => .ok acc
  | .ok parsed =>
    if parsed.start_table == table.name then
      match checkStepTables cfg.base.metadata parsed.steps with
      | .error e => .error e
      | .ok _ =>
        match cfg.base.metadata.tablesFind? parsed.final_table with
        | none => .error (.pythonKeyError parsed.final_table)
        | some ft =>
          match applicableFilters cfg.tenant_filters ft with
          | .error e => .error e
          | .ok ffs =>
            if ffs.isEmpty then .ok acc
            else .ok (acc ++ [⟨table.name, table.primary_key, parsed.steps, ffs⟩])
    else .ok acc

/-- A per-path summary of `pathLoopStep`: the select the loop would append
for this path, or `none` when the loop would skip it (this conflates the
skip cases with the error cases, which callers rule out separately). -/
def pathSelect (cfg : TenantWiperConfig) (table : TableDef) (p : String) : Option SelectQ :=
  match _parse_join_path p with
  | .error _ => none
  | .ok parsed =>
    if parsed.start_table == table.name then
      match checkStepTables cfg.base.metadata parsed.steps with
      | .error _ => none
      | .ok _ =>
        match cfg.base.metadata.tablesFind? parsed.final_table with
        | none => none
        | some ft =>
          match applicableFilters cfg.tenant_filters ft with
          | .error _ => none
          | .ok ffs =>
            if ffs.isEmpty then none
            else some ⟨table.name, table.primary_key, parsed.steps, ffs⟩
    else none

/-- `TenantDeleter._build_pk_collection_query` (core.py:378-472): a table
with no primary key is a `ValueError`; a table with at least one
applicable direct filter gets a select over its own rows (Case 1); else a
table with a relationship entry gets the union of its successfully built
path queries, `none` when no path survives (Case 2); else `none`. -/
def _build_pk_collection_query (cfg : TenantWiperConfig) (table : TableDef) :
    Except DeleteError (Option PKQuery) :=
  if table.primary_key.isEmpty then .error (.missingPrimaryKey table.name)
  else
    match applicableFilters cfg.tenant_filters table with
    | .error e => .error e
    | .ok applicable =>
      if !applicable.isEmpty then
        .ok (some (.single ⟨table.name, table.primary_key, [], applicable⟩))
      else
        match dictFind? cfg.relationshipDict table.name with
        | none => .ok none
        | some path_strings =>
          match path_strings.foldlM (pathLoopStep cfg table) [] with
          | .error e => .error e
          | .ok path_queries =>
            match path_queries with
            | [] => .ok none
            | [q] => .ok (some (.single q))
            | q :: qs => .ok (some (.unionQ q qs))

/-- The primary-key tuple of a row. -/
def pkTupleOf (pk_cols : List String) (r : Row) : PKTuple :=
  pk_cols.map (rowGet r)

/-- One equality join: extend each `(start row, current row)` pair with
the rows of the step's target table whose `to_key` equals the current
row's `from_key` (SQL semantics: a NULL or absent column never matches). -/
def joinStep1 (db : Database) (pairs : List (Row × Row)) (s : JoinStep) : List (Row × Row) :=
  pairs.flatMap (fun pr =>
    (dbRows db s.to_table).filterMap (fun r2 =>
      match rowGet pr.2 s.from_key, rowGet r2 s.to_key with
      | some v1, some v2 => if v1 == v2 then some (pr.1, r2) else none
      | _, _ => none))

/-- Bag semantics of one select: pk tuples of the start rows whose join
chain reaches a terminal row satisfying the disjunction of `whereOr`
(duplicates are kept, as in a SQL select without DISTINCT). -/
def evalSelect (db : Database) (q : SelectQ) : List PKTuple :=
  let startPairs := (dbRows db q.table).map (fun r => (r, r))
  let finals := q.steps.foldl (joinStep1 db) startPairs
  (finals.filter (fun pr => q.whereOr.any (fun e => e.eval pr.2))).map
    (fun pr => pkTupleOf q.pk_cols pr.1)

/-- Semantics of a built query; SQL UNION removes duplicates. -/
def evalPKQuery (db : Database) : PKQuery → List PKTuple
  | .single q => evalSelect db q
  | .unionQ first rest => (evalSelect db first ++ rest.flatMap (evalSelect db)).dedup

/-! ## Two-phase executor -/

/-- A transaction/session handle: committed state, in-transaction state,
and the flags the claims observe. -/
structure Session where
  base : Database
  db : Database
  committed : Bool
  rolledBack : Bool
  flushed : Bool
deriving DecidableEq, Repr

/-- `session.rollback()`: discard in-transaction work. -/
def Session.rollback (s : Session) : Session :=
  { s with db := s.base, rolledBack := true }

/-- `session.commit()`: make in-transaction work durable. -/
def Session.commit (s : Session) : Session :=
  { s with base := s.db, committed := true }

/-- `session.flush()`: pending work stays uncommitted. -/
def Session.flushS (s : Session) : Session :=
  { s with flushed := true }

/-- Lookup in the `pks_to_delete` mapping. -/
def pksMapFind? (m : List (String × List PKTuple)) (t : String) : Option (List PKTuple) :=
  (m.find? (fun p => p.1 == t)).map (·.2)

/-- Python-dict assignment: replace the value of the first entry with the
given key, or append a new entry. -/
def pksUpdate (m : List (String × List PKTuple)) (t : String) (v : List PKTuple) :
    List (String × List PKTuple) :=
  match m with
  | [] => [(t, v)]
  | e :: m' => if e.1 == t then (e.1, v) :: m' else e :: pksUpdate m' t v

/-- Storing one table's collected PKs (core.py:508-513): a non-empty
result is unioned into the entry (`set.update`, deduplicating), an empty
result stores the empty set. -/
def pksStore (m : List (String × List PKTuple)) (t : String) (pks : List PKTuple) :
    List (String × List PKTuple) :=
  pksUpdate m t (if pks.isEmpty then [] else (((pksMapFind? m t).getD []) ++ pks).dedup)

/-- `TenantDeleter._build_deletion_order` (core.py:374-376). -/
def reversedTables (cfg : TenantWiperConfig) : List TableDef :=
  cfg.base.metadata.sorted_tables.reverse

/-- Phase-1 state: executed-statement counter (for fault injection) and
the `pks_to_delete` accumulator. -/
structure CollectSt where
  count : Nat
  pks : List (String × List PKTuple)
deriving DecidableEq, Repr

/-- Phase-1 body for one table (core.py:481-513): excluded tables are
skipped; a `None` query is a fatal `ValueError`; executing the query can
fail (injected via `failAt`), and its results are stored. -/
def collectTable (cfg : TenantWiperConfig) (failAt : Nat → Bool) (db : Database)
    (st : CollectSt) (table : TableDef) : Except DeleteError CollectSt :=
  if cfg.excluded_tables.contains table.name then .ok st
  else
    match _build_pk_collection_query cfg table with
    | .error e => .error e
    | .ok none => .error (.noQueryForTable table.name)
    | .ok (some q) =>
      if failAt st.count then .error .executionError
      else .ok ⟨st.count + 1, pksStore st.pks table.name (evalPKQuery db q)⟩

/-- `TenantDeleter._collect_pks_to_delete` (core.py:474-514). -/
def _collect_pks_to_delete (cfg : TenantWiperConfig) (failAt : Nat → Bool)
    (db : Database) : Except DeleteError CollectSt :=
  (reversedTables cfg).foldlM (collectTable cfg failAt db) ⟨0, []⟩

/-- `self.config.batch_size or 500`: `None` and `0` are falsy. -/
def effBatchSize (cfg : TenantWiperConfig) : Nat :=
  match cfg.batch_size with
  | none => 500
  | some b => if b == 0 then 500 else b

/-- Fuel-driven chunking; the fuel is instantiated with the list length. -/
def chunkAux (b : Nat) : Nat → List α → List (List α)
  | _, [] => []
  | 0, l => [l]
  | fuel+1, a :: l => (a :: l.take (b - 1)) :: chunkAux b fuel (l.drop (b - 1))

/-- `pks[i:i + batch_size]` chunking (core.py:536-537): split a list into
consecutive chunks of `b` (the final chunk may be shorter). -/
def chunkList (b : Nat) (l : List α) : List (List α) :=
  chunkAux b l.length l

/-- One executed delete statement: `DELETE FROM table WHERE pk IN batch`
(tuple-IN for composite keys; the keys list is the batch). -/
structure DeleteStmt where
  table : String
  keys : List PKTuple
deriving DecidableEq, Repr

/-- Effect of one batched delete: remove from the named table every row
whose pk tuple is in the batch. -/
def deleteRows (db : Database) (t : String) (pk_cols : List String)
    (keys : List PKTuple) : Database :=
  db.map (fun e =>
    if e.1 == t then (e.1, e.2.filter (fun r => !keys.contains (pkTupleOf pk_cols r))) else e)

/-- Phase-2 state: statement counter, database, statements issued. -/
structure ExecSt where
  count : Nat
  db : Database
  stmts : List DeleteStmt
deriving DecidableEq, Repr

/-- Executing one batch (core.py:538-544): build the IN-condition over the
batch and execute, with injected failure via `failAt`. -/
def execBatch (failAt : Nat → Bool) (table : TableDef) (st : ExecSt)
    (batch : List PKTuple) : Except DeleteError ExecSt :=
  if failAt st.count then .error .executionError
  else pure ⟨st.count + 1, deleteRows st.db table.name table.primary_key batch,
             st.stmts ++ [⟨table.name, batch⟩]⟩

/-- Phase-2 body for one table (core.py:523-544): tables without a
`pks_to_delete` entry or with an empty entry issue no statements. -/
def execTable (cfg : TenantWiperConfig) (failAt : Nat → Bool)
    (pksMap : List (String × List PKTuple)) (st : ExecSt) (table : TableDef) :
    Except DeleteError ExecSt :=
  match pksMapFind? pksMap table.name with
  | none => pure st
  | some pks =>
    if pks.isEmpty then pure st
    else (chunkList (effBatchSize cfg) pks).foldlM (execBatch failAt table) st

/-- `TenantDeleter._execute_deletions` (core.py:516-546), started at
statement counter `c0` over database `db0`. -/
def _execute_deletions (cfg : TenantWiperConfig) (failAt : Nat → Bool)
    (pksMap : List (String × List PKTuple)) (db0 : Database) (c0 : Nat) :
    Except DeleteError ExecSt :=
  (reversedTables cfg).foldlM (execTable cfg failAt pksMap) ⟨c0, db0, []⟩

/-- The effect of one executed batch, without fault injection: the pure
computation `execBatch` performs when `failAt` never fires. -/
def execBatchPure (table : TableDef) (st : ExecSt) (batch : List PKTuple) : ExecSt :=
  ⟨st.count + 1, deleteRows st.db table.name table.primary_key batch,
   st.stmts ++ [⟨table.name, batch⟩]⟩

/-- The effect of one table's Phase-2 iteration without fault injection. -/
def execTablePure (cfg : TenantWiperConfig) (pksMap : List (String × List PKTuple))
    (st : ExecSt) (table : TableDef) : ExecSt :=
  match pksMapFind? pksMap table.name with
  | none => st
  | some pks =>
    if pks.isEmpty then st
    else (chunkList (effBatchSize cfg) pks).foldl (execBatchPure table) st

/-- The delete statements Phase 2 issues for one table: one per chunk of
the table's collected PKs. -/
def tableStmts (cfg : TenantWiperConfig) (pksMap : List (String × List PKTuple))
    (table : TableDef) : List DeleteStmt :=
  match pksMapFind? pksMap table.name with
  | none => []
  | some pks =>
    if pks.isEmpty then []
    else (chunkList (effBatchSize cfg) pks).map (fun b => ⟨table.name, b⟩)

/-- The selects a built query consists of. -/
def selectsOf : PKQuery → List SelectQ
  | .single q => [q]
  | .unionQ first rest => first :: rest

/-- Everything observable about one `delete()` call: the session as the
caller sees it afterwards, the returned-or-raised outcome, the dry-run
report (table name to row count), the delete statements issued, and the
collected `pks_to_delete`. -/
structure DeleteOutcome where
  sess : Session
  result : Except DeleteError Unit
  report : Option (List (String × Nat))
  stmts : List DeleteStmt
  pks : List (String × List PKTuple)
deriving DecidableEq, Repr

/-- `TenantDeleter.delete` (core.py:548-599): Phase 1; on dry run, report
and return with the transaction untouched; otherwise Phase 2, then commit
or flush; any exception anywhere rolls the session back and re-raises. -/
def TenantDeleter.delete (cfg : TenantWiperConfig) (failAt : Nat → Bool)
    (sess : Session) (dry_run : Bool) (commit : Bool) : DeleteOutcome :=
  match _collect_pks_to_delete cfg failAt sess.db with
  | .error e => ⟨sess.rollback, .error e, none, [], []⟩
  | .ok cst =>
    if dry_run then
      ⟨sess, .ok (), some (cst.pks.map (fun p => (p.1, p.2.length))), [], cst.pks⟩
    else
      match _execute_deletions cfg failAt cst.pks sess.db cst.count with
      | .error e => ⟨sess.rollback, .error e, none, [], cst.pks⟩
      | .ok est =>
        let s1 : Session := { sess with db := est.db }
        ⟨if commit then s1.commit else s1.flushS, .ok (), none, est.stmts, cst.pks⟩

/-! ## Concrete fixtures (the spec's end-to-end schema, used by witnesses) -/

def usersT : TableDef := ⟨"users", ["id", "tenant_id"], ["id"]⟩
def ordersT : TableDef := ⟨"orders", ["id", "user_id", "tenant_id"], ["id"]⟩
def productsT : TableDef := ⟨"products", ["id"], ["id"]⟩
def productOrdersT : TableDef := ⟨"product_orders", ["product_id", "order_id"], ["product_id", "order_id"]⟩
def auditLogsT : TableDef := ⟨"audit_logs", ["id"], ["id"]⟩

def e2eBase : DeclarativeBase :=
  ⟨⟨[usersT, ordersT, productsT, productOrdersT, auditLogsT]⟩, []⟩

def e2eCfg : TenantWiperConfig :=
  { base := e2eBase
    tenant_filters := [.wellFormed (.eqConst "tenant_id" 1)]
    relationships := ["product_orders__order_id=id__orders",
                      "products__id=product_id__product_orders__order_id=id__orders"]
    excluded_tables := ["audit_logs"] }

def e2eDb : Database :=
  [("users", [[("id", 1), ("tenant_id", 1)], [("id", 2), ("tenant_id", 1)], [("id", 3), ("tenant_id", 2)]]),
   ("orders", [[("id", 1), ("user_id", 1), ("tenant_id", 1)], [("id", 2), ("user_id", 2), ("tenant_id", 1)], [("id", 3), ("user_id", 3), ("tenant_id", 2)]]),
   ("products", [[("id", 1)], [("id", 2)], [("id", 3)]]),
   ("product_orders", [[("product_id", 1), ("order_id", 1)], [("product_id", 2), ("order_id", 2)], [("product_id", 3), ("order_id", 3)]]),
   ("audit_logs", [[("id", 1)]])]

def e2eSess : Session := ⟨e2eDb, e2eDb, false, false, false⟩

def e2eOut : DeleteOutcome := TenantDeleter.delete e2eCfg (fun _ => false) e2eSess false true

def e2eDry : DeleteOutcome := TenantDeleter.delete e2eCfg (fun _ => false) e2eSess true true

/-- The condition segments of a segment list that alternates
condition/table (every other element, starting with the first). -/
def condSegs : List String → List String
  | [] => []
  | [_] => []
  | c :: _ :: rest => c :: condSegs rest

/-- The collected Phase-1 state of the end-to-end fixture (computed, not
hand-written). -/
def e2eCst : CollectSt :=
  match _collect_pks_to_delete e2eCfg (fun _ => false) e2eDb with
  | .ok cst => cst
  | .error _ => ⟨0, []⟩

/-- The collected PKs of the `users` table in the end-to-end fixture. -/
def e2eUsersPks : List PKTuple :=
  (pksMapFind? e2eCst.pks "users").getD []

/-! ## Fixtures for C7 (batch size 2, five matching rows) -/

def batchCfg : TenantWiperConfig :=
  { base := ⟨⟨[usersT]⟩, []⟩
    tenant_filters := [.wellFormed (.eqConst "tenant_id" 1)]
    batch_size := some 2 }

def batchPks : List PKTuple :=
  [[some 1], [some 2], [some 3], [some 4], [some 5]]

def batchMap : List (String × List PKTuple) := [("users", batchPks)]

def batchDb : Database :=
  [("users",
    [[("id", 1), ("tenant_id", 1)], [("id", 2), ("tenant_id", 1)],
     [("id", 3), ("tenant_id", 1)], [("id", 4), ("tenant_id", 1)],
     [("id", 5), ("tenant_id", 1)], [("id", 6), ("tenant_id", 2)]])]

/-! ## Fixtures for C2 (a table with two declared paths) -/

def c2Table : TableDef := ⟨"emp", ["id", "cid", "did"], ["id"]⟩

def c2Cfg : TenantWiperConfig :=
  { base := ⟨⟨[⟨"companies", ["id", "tenant_id"], ["id"]⟩,
              ⟨"departments", ["id", "tenant_id"], ["id"]⟩, c2Table]⟩, []⟩
    tenant_filters := [.wellFormed (.eqConst "tenant_id" 1)]
    relationships := ["emp__cid=id__companies", "emp__did=id__departments"] }

def c2Db : Database :=
  [("companies", [[("id", 1), ("tenant_id", 1)], [("id", 2), ("tenant_id", 2)]]),
   ("departments", [[("id", 1), ("tenant_id", 2)], [("id", 2), ("tenant_id", 1)]]),
   ("emp", [[("id", 10), ("cid", 1), ("did", 1)], [("id", 11), ("cid", 2), ("did", 2)],
            [("id", 12), ("cid", 2), ("did", 1)]])]

/-! ## Fixtures for C9 (inherited mapper columns) and C1 -/

/-- A schema with joined-table inheritance: the `employees` table itself
has columns `id, badge`, while the registered model's mapper also carries
the inherited column `kind` from `people`. -/
def c9md : Metadata :=
  ⟨[⟨"people", ["id", "kind"], ["id"]⟩, ⟨"employees", ["id", "badge"], ["id"]⟩]⟩

def c9base : DeclarativeBase :=
  ⟨c9md, [("employees", ["id", "kind", "badge"])]⟩

/-- A configuration whose excluded table `logs` also appears in the
relationship index, while the only non-excluded table (`users`) is
directly tenant-filterable. -/
def c1ConflictCfg : TenantWiperConfig :=
  { base := ⟨⟨[⟨"users", ["id", "tenant_id"], ["id"]⟩, ⟨"logs", ["id"], ["id"]⟩]⟩, []⟩
    tenant_filters := [.wellFormed (.eqConst "tenant_id" 7)]
    relationships := ["logs__ref=id__users"]
    excluded_tables := ["logs"] }

/-- A configuration with one covered table and two uncovered ones. -/
def c1UncoveredCfg : TenantWiperConfig :=
  { base := ⟨⟨[⟨"users", ["id", "tenant_id"], ["id"]⟩, ⟨"foo", ["id"], ["id"]⟩,
              ⟨"bar", ["id"], ["id"]⟩]⟩, []⟩
    tenant_filters := [.wellFormed (.eqConst "tenant_id" 7)] }

/-! ## Sanity checks of the embedding on concrete inputs -/

theorem parse_sanity :
    _parse_join_path "table1__fk=pk__table2" =
      .ok ⟨"table1", "table2", [⟨"table1", "fk", "table2", "pk"⟩]⟩ ∧
    _parse_join_path "a__b" = .error .malformedPath ∧
    _parse_join_path "a__b__c" = .error .invalidJoinCondition := by decide

theorem e2e_validate_sanity : e2eCfg.validate = .ok () := by decide

theorem e2e_delete_sanity :
    e2eOut.result = .ok () ∧
    dbRows e2eOut.sess.db "users" = [[("id", 3), ("tenant_id", 2)]] ∧
    dbRows e2eOut.sess.db "orders" = [[("id", 3), ("user_id", 3), ("tenant_id", 2)]] ∧
    dbRows e2eOut.sess.db "products" = [[("id", 3)]] ∧
    dbRows e2eOut.sess.db "product_orders" = [[("product_id", 3), ("order_id", 3)]] ∧
    (dbRows e2eOut.sess.db "audit_logs").length = 1 ∧
    e2eOut.sess.committed = true := by decide

theorem e2e_dry_sanity :
    e2eDry.report =
      some [("product_orders", 2), ("products", 2), ("orders", 2), ("users", 2)] ∧
    e2eDry.sess = e2eSess := by decide

/-! ## Parser lemmas -/

/-- Shape of a successful `parseSteps` run: the consumed segment list has
twice as many elements as there are steps, and the final table is the
last segment (the current table when there is none). -/
theorem parseSteps_ok_shape : ∀ (ft : String) (rest : List String) {steps : List JoinStep}
    {fin : String}, parseSteps ft rest = .ok (steps, fin) →
    rest.length = 2 * steps.length ∧ fin = (rest.getLast?).getD ft
  | ft, [], steps, fin, h => by
    simp only [parseSteps, Except.ok.injEq, Prod.mk.injEq] at h
    simp [← h.1, ← h.2]
  | ft, [c], steps, fin, h => by
    simp [parseSteps] at h
  | ft, c :: t :: rest, steps, fin, h => by
    simp only [parseSteps] at h
    split at h
    · rename_i fk tk heq
      split at h
      · rename_i steps' fin' heq'
        obtain ⟨h1, h2⟩ := parseSteps_ok_shape t rest heq'
        simp only [Except.ok.injEq, Prod.mk.injEq] at h
        obtain ⟨hs, hf⟩ := h
        constructor
        · simp [← hs, h1]; ring
        · cases rest with
          | nil =>
            simp only [List.getLast?_cons_cons]
            simp only [List.getLast?_nil, Option.getD_none] at h2
            simp [← hf, h2]
          | cons x xs =>
            simp only [List.getLast?_cons_cons]
            rw [← hf, h2]
            have hsome : (x :: xs).getLast?.isSome := by simp [List.getLast?_isSome]
            obtain ⟨v, hv⟩ := Option.isSome_iff_exists.mp hsome
            simp [hv]
      · exact absurd h (by simp)
    · exact absurd h (by simp)

/-- A bad condition segment (not exactly one `=`) in an even-length
segment list makes `parseSteps` fail with the invalid-join-condition
error. -/
theorem parseSteps_bad_cond : ∀ (ft : String) (rest : List String),
    rest.length % 2 = 0 →
    (∃ c ∈ condSegs rest, (pySplit "=" c).length ≠ 2) →
    parseSteps ft rest = .error .invalidJoinCondition
  | ft, [], _, hbad => by simp [condSegs] at hbad
  | ft, [c], hlen, _ => by simp at hlen
  | ft, c :: t :: rest, hlen, hbad => by
    simp only [condSegs, List.mem_cons] at hbad
    obtain ⟨x, hx, hxbad⟩ := hbad
    simp only [parseSteps]
    rcases hx with rfl | hx
    · match hsplit : pySplit "=" x with
      | [fk, tk] => exact absurd (by rw [hsplit]; rfl) hxbad
      | [] => rfl
      | [a] => rfl
      | a :: b :: d :: l => rfl
    · have hrest : rest.length % 2 = 0 := by
        simp only [List.length_cons] at hlen
        omega
      have hrec : parseSteps t rest = .error .invalidJoinCondition :=
        parseSteps_bad_cond t rest hrest ⟨x, hx, hxbad⟩
      match hsplit : pySplit "=" c with
      | [fk, tk] => rw [hrec]
      | [] => rfl
      | [a] => rfl
      | a :: b :: d :: l => rfl

/-- C5: for every valid path string, `_parse_join_path` returns a path
whose step count is one less than the number of table segments (the
`__`-split has `2*steps+1` parts), whose `start_table` is the first
segment and whose `final_table` is the last table segment; in particular
a single-segment path (no `__`) parses successfully to zero steps with
`start_table = final_table`. -/
theorem parse_join_path_eq (path : String) :
    _parse_join_path path =
      (if ((pySplit "__" path).length % 2 == 0) = true then .error .malformedPath
       else
         match pySplit "__" path with
         | [] => .error .malformedPath
         | st :: rest =>
           match parseSteps st rest with
           | .ok (steps, fin) => .ok ⟨st, fin, steps⟩
           | .error e => .error e) := rfl

theorem c5_parse_path_shape :
    (∀ path jp, _parse_join_path path = .ok jp →
      (pySplit "__" path).length = 2 * jp.steps.length + 1 ∧
      (pySplit "__" path).headD "" = jp.start_table ∧
      ((pySplit "__" path).getLast?).getD "" = jp.final_table) ∧
    (∀ path st, pySplit "__" path = [st] →
      _parse_join_path path = .ok ⟨st, st, []⟩) := by
  constructor
  · intro path jp h
    rw [parse_join_path_eq] at h
    by_cases hcond : ((pySplit "__" path).length % 2 == 0) = true
    · rw [if_pos hcond] at h
      exact absurd h (by simp)
    · rw [if_neg hcond] at h
      match hp : pySplit "__" path with
      | [] =>
        rw [hp] at h
        exact absurd h (by simp)
      | st :: rest =>
        rw [hp] at h
        have h' : (match parseSteps st rest with
            | Except.ok (steps, fin) =>
              Except.ok (⟨st, fin, steps⟩ : JoinPath)
            | Except.error e => Except.error e) = Except.ok jp := h
        match heq : parseSteps st rest with
        | .error e =>
          rw [heq] at h'
          exact absurd h' (by simp)
        | .ok (steps, fin) =>
          rw [heq] at h'
          simp only [Except.ok.injEq] at h'
          obtain ⟨h1, h2⟩ := parseSteps_ok_shape st rest heq
          subst h'
          refine ⟨?_, ?_, ?_⟩
          · simp only [List.length_cons, h1]
          · rfl
          · cases rest with
            | nil => simpa using h2.symm
            | cons x xs =>
              simp only [List.getLast?_cons_cons]
              have hsome : (x :: xs).getLast?.isSome := by simp [List.getLast?_isSome]
              obtain ⟨v, hv⟩ := Option.isSome_iff_exists.mp hsome
              rw [hv] at h2 ⊢
              simp only [Option.getD_some]
              exact h2.symm
  · intro path st hsplit
    rw [parse_join_path_eq, hsplit]
    rfl

/-- C5 witness: a two-table path and a single-segment path. -/
theorem c5_witness :
    ((pySplit "__" "t1__a=b__t2").length =
        2 * (JoinPath.steps ⟨"t1", "t2", [⟨"t1", "a", "t2", "b"⟩]⟩).length + 1 ∧
      (pySplit "__" "t1__a=b__t2").headD "" =
        (JoinPath.start_table ⟨"t1", "t2", [⟨"t1", "a", "t2", "b"⟩]⟩) ∧
      ((pySplit "__" "t1__a=b__t2").getLast?).getD "" =
        (JoinPath.final_table ⟨"t1", "t2", [⟨"t1", "a", "t2", "b"⟩]⟩)) ∧
    _parse_join_path "products" = .ok ⟨"products", "products", []⟩ := by
  exact ⟨c5_parse_path_shape.1 "t1__a=b__t2" ⟨"t1", "t2", [⟨"t1", "a", "t2", "b"⟩]⟩ (by decide),
         c5_parse_path_shape.2 "products" "products" (by decide)⟩

/-- C6 counterexample: the claim says `_parse_join_path` fails on the
empty string, but the empty string splits into the single segment `""`
(odd count), so the parser succeeds with a zero-step path. -/
theorem c6_counterexample : _parse_join_path "" = .ok ⟨"", "", []⟩ := by decide

/-- C6 (amended): `_parse_join_path` fails with `MalformedPath` on every
input whose `__`-split has even length and with `InvalidJoinCondition`
whenever some condition segment of an odd-length split does not split
into exactly two parts on `=`; the empty string, however, parses
successfully to a zero-step path — emptiness is rejected by
`_validate_relationship_path` before parsing, not by the parser. -/
theorem c6_parse_failures :
    (∀ path, (pySplit "__" path).length % 2 = 0 →
      _parse_join_path path = .error .malformedPath) ∧
    (∀ path, (pySplit "__" path).length % 2 = 1 →
      (∃ c ∈ condSegs ((pySplit "__" path).drop 1), (pySplit "=" c).length ≠ 2) →
      _parse_join_path path = .error .invalidJoinCondition) ∧
    _parse_join_path "" = .ok ⟨"", "", []⟩ ∧
    (∀ m fs, _validate_relationship_path "" m fs =
      .ok ["Empty relationship path provided"]) := by
  refine ⟨?_, ?_, by decide, ?_⟩
  · intro path h
    rw [parse_join_path_eq]
    simp [h]
  · intro path hodd hbad
    rw [parse_join_path_eq, if_neg (by simp [hodd])]
    match hp : pySplit "__" path with
    | [] => rw [hp] at hodd; simp at hodd
    | st :: rest =>
      rw [hp] at hodd hbad
      have hrest : rest.length % 2 = 0 := by
        simp only [List.length_cons] at hodd
        omega
      have hb := parseSteps_bad_cond st rest hrest (by simpa using hbad)
      show (match parseSteps st rest with
        | Except.ok (steps, fin) => Except.ok (⟨st, fin, steps⟩ : JoinPath)
        | Except.error e => Except.error e) = Except.error ParseErr.invalidJoinCondition
      rw [hb]
  · intro m fs
    rfl

/-- C6 witness: an even split fails as malformed, a bad condition fails
as an invalid join condition, the empty path is caught by the validator. -/
theorem c6_witness :
    _parse_join_path "a__b" = .error .malformedPath ∧
    _parse_join_path "a__bad__c" = .error .invalidJoinCondition ∧
    _validate_relationship_path "" (⟨[]⟩ : Metadata) [] =
      .ok ["Empty relationship path provided"] := by
  refine ⟨c6_parse_failures.1 "a__b" (by decide), ?_, ?_⟩
  · exact c6_parse_failures.2.1 "a__bad__c" (by decide) ⟨"bad", by decide, by decide⟩
  · exact c6_parse_failures.2.2.2 (⟨[]⟩ : Metadata) []

/-! ## C8: filter syntax errors are fail-fast during validation -/

/-- A broken filter anywhere after a prefix of inapplicable filters makes
the direct-coverage probe loop raise instead of answering. -/
theorem has_tenant_column_broken : ∀ (fs₁ : List TenantFilter) (fs₂ : List TenantFilter)
    (f : TenantFilter) (t : TableDef),
    (f = TenantFilter.brokenAttrKey ∨ f = TenantFilter.brokenOther) →
    (∀ g ∈ fs₁, ∀ cs, _can_apply_tenant_filter t g ≠ .ok (true, cs)) →
    _has_tenant_column (fs₁ ++ f :: fs₂) t = .error .filterSyntax
  | [], fs₂, f, t, hb, _ => by
    rcases hb with rfl | rfl <;> rfl
  | g :: fs₁, fs₂, f, t, hb, hpre => by
    have hrec := has_tenant_column_broken fs₁ fs₂ f t hb
      (fun g' hg' => hpre g' (List.mem_cons_of_mem g hg'))
    cases g with
    | brokenAttrKey => rfl
    | brokenOther => rfl
    | wellFormed e =>
      have hne := hpre (.wellFormed e) (List.mem_cons_self _ _) e.cols
      by_cases hc : e.cols.all (fun c => t.columns.contains c) = true
      · have happ : _can_apply_tenant_filter t (.wellFormed e) = .ok (true, e.cols) := by
          simp only [_can_apply_tenant_filter, hc]
          simp
        exact absurd happ hne
      · show _has_tenant_column (TenantFilter.wellFormed e :: (fs₁ ++ f :: fs₂)) t =
          .error .filterSyntax
        unfold _has_tenant_column
        simp only [_can_apply_tenant_filter, if_neg hc]
        exact hrec

/-- A broken filter anywhere after a prefix of inapplicable filters makes
the terminal-filterability loop raise instead of answering. -/
theorem terminalLoop_broken : ∀ (fs₁ : List TenantFilter) (fs₂ : List TenantFilter)
    (f : TenantFilter) (ft : TableDef),
    (f = TenantFilter.brokenAttrKey ∨ f = TenantFilter.brokenOther) →
    (∀ g ∈ fs₁, ∀ cs, _can_apply_tenant_filter ft g ≠ .ok (true, cs)) →
    terminalLoop ft (fs₁ ++ f :: fs₂) = .error .filterSyntax
  | [], fs₂, f, ft, hb, _ => by
    rcases hb with rfl | rfl <;> rfl
  | g :: fs₁, fs₂, f, ft, hb, hpre => by
    have hrec := terminalLoop_broken fs₁ fs₂ f ft hb
      (fun g' hg' => hpre g' (List.mem_cons_of_mem g hg'))
    cases g with
    | brokenAttrKey => rfl
    | brokenOther => rfl
    | wellFormed e =>
      have hne := hpre (.wellFormed e) (List.mem_cons_self _ _) e.cols
      by_cases hc : e.cols.all (fun c => ft.columns.contains c) = true
      · have happ : _can_apply_tenant_filter ft (.wellFormed e) = .ok (true, e.cols) := by
          simp only [_can_apply_tenant_filter, hc]
          simp
        exact absurd happ hne
      · show terminalLoop ft (TenantFilter.wellFormed e :: (fs₁ ++ f :: fs₂)) =
          .error .filterSyntax
        unfold terminalLoop
        simp only [_can_apply_tenant_filter, if_neg hc]
        exact hrec

/-- C8: a tenant filter that raises when invoked against the shadow
recorder makes `_can_apply_tenant_filter` raise a filter syntax error
immediately, and that error propagates both out of the direct-coverage
probe `_has_tenant_column` and out of the terminal-table check of
`_validate_relationship_path` (a thrown error, not an entry of the
returned error list), provided the loop reaches the broken filter (no
earlier filter already applies). -/
theorem c8_syntax_error_fail_fast :
    (∀ (t : TableDef) (f : TenantFilter),
      (f = TenantFilter.brokenAttrKey ∨ f = TenantFilter.brokenOther) →
      _can_apply_tenant_filter t f = .error .filterSyntax) ∧
    (∀ (t : TableDef) (fs₁ fs₂ : List TenantFilter) (f : TenantFilter),
      (f = TenantFilter.brokenAttrKey ∨ f = TenantFilter.brokenOther) →
      (∀ g ∈ fs₁, ∀ cs, _can_apply_tenant_filter t g ≠ .ok (true, cs)) →
      _has_tenant_column (fs₁ ++ f :: fs₂) t = .error .filterSyntax) ∧
    (∀ (p : String) (m : Metadata) (fs₁ fs₂ : List TenantFilter) (f : TenantFilter)
      (jp : JoinPath) (ft : TableDef),
      (f = TenantFilter.brokenAttrKey ∨ f = TenantFilter.brokenOther) →
      p ≠ "" →
      _parse_join_path p = .ok jp →
      stepErrors m jp.steps = [] →
      m.tablesFind? jp.final_table = some ft →
      (∀ g ∈ fs₁, ∀ cs, _can_apply_tenant_filter ft g ≠ .ok (true, cs)) →
      _validate_relationship_path p m (fs₁ ++ f :: fs₂) = .error .filterSyntax) := by
  refine ⟨?_, ?_, ?_⟩
  · intro t f hb
    rcases hb with rfl | rfl <;> rfl
  · intro t fs₁ fs₂ f hb hpre
    exact has_tenant_column_broken fs₁ fs₂ f t hb hpre
  · intro p m fs₁ fs₂ f jp ft hb hne hparse hsteps hft hpre
    unfold _validate_relationship_path
    rw [if_neg (by simpa using hne), hparse]
    simp only [hsteps, List.isEmpty_nil, Bool.true_and]
    have hnonempty : (fs₁ ++ f :: fs₂).isEmpty = false := by
      cases fs₁ <;> rfl
    rw [hnonempty]
    simp only [Bool.not_false, if_pos rfl, hft]
    rw [terminalLoop_broken fs₁ fs₂ f ft hb hpre]
    simp

/-- C8 witness: one broken filter behind an inapplicable well-formed one,
probed against a concrete table and a concrete one-step path. -/
theorem c8_witness :
    _can_apply_tenant_filter ⟨"users", ["id"], ["id"]⟩ .brokenOther = .error .filterSyntax ∧
    _has_tenant_column [.wellFormed (.eqConst "tenant_id" 1), .brokenOther]
      ⟨"users", ["id"], ["id"]⟩ = .error .filterSyntax ∧
    _validate_relationship_path "users"
      ⟨[⟨"users", ["id"], ["id"]⟩]⟩
      [.wellFormed (.eqConst "tenant_id" 1), .brokenOther] = .error .filterSyntax := by
  have hpre1 : ∀ g ∈ [TenantFilter.wellFormed (.eqConst "tenant_id" 1)], ∀ cs,
      _can_apply_tenant_filter (⟨"users", ["id"], ["id"]⟩ : TableDef) g ≠ .ok (true, cs) := by
    intro g hg cs hcontra
    simp only [List.mem_singleton] at hg
    subst hg
    have hev : _can_apply_tenant_filter (⟨"users", ["id"], ["id"]⟩ : TableDef)
        (.wellFormed (.eqConst "tenant_id" 1)) = .ok (false, ["tenant_id"]) := by decide
    rw [hev] at hcontra
    simp at hcontra
  exact ⟨c8_syntax_error_fail_fast.1 ⟨"users", ["id"], ["id"]⟩ .brokenOther (Or.inr rfl),
    c8_syntax_error_fail_fast.2.1 ⟨"users", ["id"], ["id"]⟩
      [.wellFormed (.eqConst "tenant_id" 1)] [] .brokenOther (Or.inr rfl) hpre1,
    c8_syntax_error_fail_fast.2.2 "users" ⟨[⟨"users", ["id"], ["id"]⟩]⟩
      [.wellFormed (.eqConst "tenant_id" 1)] [] .brokenOther ⟨"users", "users", []⟩
      ⟨"users", ["id"], ["id"]⟩ (Or.inr rfl) (by decide) (by decide) (by decide)
      (by decide) hpre1⟩

/-! ## C10: delete-time AttributeError/KeyError skipping -/

/-- C10: in the applicable-filter gathering loop that
`_build_pk_collection_query` runs both for the table itself (direct case,
core.py:394-402) and for a path's final table (relationship case,
core.py:445-452), a filter whose invocation against the real table raises
`AttributeError`/`KeyError` is silently dropped — the gathered list is
exactly the one obtained without that filter, with no error — while the
same broken filter is a fail-fast `ValueError` for the validation-time
probe. -/
theorem c10_attr_key_skipped :
    ∀ (t : TableDef) (fs₁ fs₂ : List TenantFilter) (f : TenantFilter),
      applyFilterReal f t = .attrKeyErr →
      applicableFilters (fs₁ ++ f :: fs₂) t = applicableFilters (fs₁ ++ fs₂) t ∧
      (f = TenantFilter.brokenAttrKey →
        _can_apply_tenant_filter t f = .error .filterSyntax) := by
  intro t fs₁ fs₂ f hf
  constructor
  · unfold applicableFilters
    rw [List.foldlM_append, List.foldlM_append]
    cases hacc : List.foldlM (fun acc f =>
        match applyFilterReal f t with
        | .applied e => pure (acc ++ [e])
        | .attrKeyErr => pure acc
        | .otherErr => Except.error DeleteError.uncaughtFilterException)
        ([] : List FilterExpr) fs₁ with
    | error e => rfl
    | ok acc =>
      simp only [List.foldlM_cons, hf]
      rfl
  · intro hb
    subst hb
    rfl

/-! ## C1: the coverage sweep and `validate` -/

/-- Characterisation of a clean sweep run: the collected list is exactly
the names of the tables satisfying `notCovered`, in schema order. -/
theorem sweep_fold_ok (cfg : TenantWiperConfig) : ∀ (l : List TableDef) (acc u : List String),
    List.foldlM (sweepStep cfg) acc l = .ok u →
    u = acc ++ (l.filter (notCovered cfg)).map (·.name)
  | [], acc, u, h => by
    simp only [List.foldlM_nil] at h
    cases h
    simp
  | t :: l, acc, u, h => by
    rw [List.foldlM_cons] at h
    by_cases hexcl : cfg.excluded_tables.contains t.name = true
    · have hstep : sweepStep cfg acc t = .ok acc := by
        unfold sweepStep
        rw [if_pos hexcl]
      rw [hstep] at h
      have h' : List.foldlM (sweepStep cfg) acc l = .ok u := h
      have hrec := sweep_fold_ok cfg l acc u h'
      have hnc : notCovered cfg t = false := by
        simp only [notCovered, hexcl]
        rfl
      simp [List.filter_cons, hnc, hrec]
    · have hexcl' : cfg.excluded_tables.contains t.name = false := by
        simpa using hexcl
      cases hhas : _has_tenant_column cfg.tenant_filters t with
      | error e =>
        have hstep : sweepStep cfg acc t = .error e := by
          unfold sweepStep
          rw [if_neg hexcl, hhas]
        rw [hstep] at h
        have h' : (Except.error e : Except VError (List String)) = .ok u := h
        exact absurd h' (by simp)
      | ok b =>
        cases b with
        | true =>
          have hstep : sweepStep cfg acc t = .ok acc := by
            unfold sweepStep
            rw [if_neg hexcl, hhas]
            rfl
          rw [hstep] at h
          have h' : List.foldlM (sweepStep cfg) acc l = .ok u := h
          have hrec := sweep_fold_ok cfg l acc u h'
          have hnc : notCovered cfg t = false := by
            simp only [notCovered, hhas]
            simp
          simp [List.filter_cons, hnc, hrec]
        | false =>
          cases hd : dictFind? cfg.relationshipDict t.name with
          | none =>
            have hstep : sweepStep cfg acc t = .ok (acc ++ [t.name]) := by
              unfold sweepStep
              rw [if_neg hexcl, hhas, hd]
              rfl
            rw [hstep] at h
            have h' : List.foldlM (sweepStep cfg) (acc ++ [t.name]) l = .ok u := h
            have hrec := sweep_fold_ok cfg l (acc ++ [t.name]) u h'
            have hnc : notCovered cfg t = true := by
              simp only [notCovered, hexcl', hhas, hd]
              rfl
            simp [List.filter_cons, hnc, hrec]
          | some ps =>
            have hstep : sweepStep cfg acc t = .ok acc := by
              unfold sweepStep
              rw [if_neg hexcl, hhas, hd]
              rfl
            rw [hstep] at h
            have h' : List.foldlM (sweepStep cfg) acc l = .ok u := h
            have hrec := sweep_fold_ok cfg l acc u h'
            have hnc : notCovered cfg t = false := by
              simp only [notCovered, hd]
              simp
            simp [List.filter_cons, hnc, hrec]

/-- C1 counterexample: the claim's acceptance half fails.  In
`c1ConflictCfg` every non-excluded table is directly tenant-filterable
(the acceptance premise holds), yet `validate` rejects, because the
excluded table `logs` also appears in the relationship index and the
exclusion-conflict check fires first. -/
theorem c1_counterexample :
    TenantWiperConfig.validate c1ConflictCfg ≠ .ok () ∧
    (∀ t ∈ c1ConflictCfg.base.metadata.sorted_tables,
      c1ConflictCfg.excluded_tables.contains t.name = false →
      _has_tenant_column c1ConflictCfg.tenant_filters t = .ok true) := by decide

/-- C1 (amended): provided the relationship/exclusion stage reports no
errors, `validate` accepts exactly when every non-excluded table is
directly filterable or has a relationship-index entry, and otherwise
rejects with one combined error listing exactly the uncovered table
names in schema order. -/
theorem c1_validate_coverage (cfg : TenantWiperConfig) (u : List String)
    (hrel : relLoopResult cfg = .ok [])
    (hsweep : coverageSweep cfg = .ok u) :
    TenantWiperConfig.validate cfg =
      (if u.isEmpty then .ok () else .error (.uncoveredTables u)) ∧
    u = ((cfg.base.metadata.sorted_tables.filter (notCovered cfg)).map (·.name)) := by
  constructor
  · unfold TenantWiperConfig.validate
    rw [hrel]
    show (coverageSweep cfg).bind (fun uncovered =>
        if uncovered.isEmpty = true then Except.ok ()
        else Except.error (VError.uncoveredTables uncovered)) =
      (if u.isEmpty = true then Except.ok ()
       else Except.error (VError.uncoveredTables u))
    rw [hsweep]
    rfl
  · simpa using sweep_fold_ok cfg cfg.base.metadata.sorted_tables [] u hsweep

/-- C1 witness: a clean configuration with two uncovered tables is
rejected with a single error naming both, in schema order. -/
theorem c1_witness :
    (TenantWiperConfig.validate c1UncoveredCfg =
      (if (["foo", "bar"] : List String).isEmpty then .ok ()
       else .error (.uncoveredTables ["foo", "bar"])) ∧
     ["foo", "bar"] =
      ((c1UncoveredCfg.base.metadata.sorted_tables.filter
        (notCovered c1UncoveredCfg)).map (·.name))) := by
  exact c1_validate_coverage c1UncoveredCfg ["foo", "bar"] (by decide) (by decide)

/-! ## C9: inherited columns are never consulted by the path validator -/

/-- C9: the path validator's column checks never see mapper-inherited
columns, because `_validate_relationship_path` passes `base=None` to
`_get_all_columns_for_table` (core.py:324 and 328).  On a schema where
the registered model for `employees` carries the inherited column `kind`,
the validator rejects a path joining onto `employees.kind`, even though
the all-columns helper, when given the base as its docstring intends,
does contain that column.  The claim (and spec section 4.3) describe the
fallback behaviour; the code never engages it. -/
theorem c9_code_bug :
    _validate_relationship_path "people__id=kind__employees" c9md [] =
      .ok [colMissingMsg "kind" "employees"] ∧
    "kind" ∈ _get_all_columns_for_table "employees" c9md (some c9base) ∧
    _get_all_columns_for_table "employees" c9md none = ["id", "badge"] := by decide

/-! ## C3: rollback and re-raise on any Phase-1/Phase-2 exception -/

/-- C3: whenever `delete()` ends in an exception — anywhere in Phase 1 or
Phase 2 — the session has been rolled back, the committed state and the
in-transaction state both equal the pre-call state (the call starts on a
clean transaction), no commit happened, and the original error is the one
re-raised to the caller. -/
theorem c3_rollback_on_error (cfg : TenantWiperConfig) (failAt : Nat → Bool)
    (sess : Session) (dr c : Bool) (e : DeleteError)
    (hclean : sess.db = sess.base)
    (herr : (TenantDeleter.delete cfg failAt sess dr c).result = .error e) :
    (TenantDeleter.delete cfg failAt sess dr c).sess.rolledBack = true ∧
    (TenantDeleter.delete cfg failAt sess dr c).sess.db = sess.db ∧
    (TenantDeleter.delete cfg failAt sess dr c).sess.base = sess.base ∧
    (TenantDeleter.delete cfg failAt sess dr c).sess.committed = sess.committed ∧
    (TenantDeleter.delete cfg failAt sess dr c).result = .error e := by
  cases hcol : _collect_pks_to_delete cfg failAt sess.db with
  | error e1 =>
    have hout : TenantDeleter.delete cfg failAt sess dr c =
        ⟨sess.rollback, .error e1, none, [], []⟩ := by
      unfold TenantDeleter.delete
      rw [hcol]
    rw [hout] at herr ⊢
    exact ⟨rfl, hclean.symm, rfl, rfl, herr⟩
  | ok cst =>
    cases dr with
    | true =>
      have hout : TenantDeleter.delete cfg failAt sess true c =
          ⟨sess, .ok (), some (cst.pks.map (fun p => (p.1, p.2.length))), [], cst.pks⟩ := by
        unfold TenantDeleter.delete
        rw [hcol]
        rfl
      rw [hout] at herr
      simp at herr
    | false =>
      cases hexec : _execute_deletions cfg failAt cst.pks sess.db cst.count with
      | error e2 =>
        have hout : TenantDeleter.delete cfg failAt sess false c =
            ⟨sess.rollback, .error e2, none, [], cst.pks⟩ := by
          unfold TenantDeleter.delete
          rw [hcol]
          show (match _execute_deletions cfg failAt cst.pks sess.db cst.count with
            | Except.error e =>
              (⟨sess.rollback, .error e, none, [], cst.pks⟩ : DeleteOutcome)
            | Except.ok est =>
              ⟨if c = true then ({ sess with db := est.db } : Session).commit
               else ({ sess with db := est.db } : Session).flushS,
               .ok (), none, est.stmts, cst.pks⟩) =
            (⟨sess.rollback, .error e2, none, [], cst.pks⟩ : DeleteOutcome)
          rw [hexec]
        rw [hout] at herr ⊢
        exact ⟨rfl, hclean.symm, rfl, rfl, herr⟩
      | ok est =>
        have hout : TenantDeleter.delete cfg failAt sess false c =
            ⟨if c = true then ({ sess with db := est.db } : Session).commit
             else ({ sess with db := est.db } : Session).flushS,
             .ok (), none, est.stmts, cst.pks⟩ := by
          unfold TenantDeleter.delete
          rw [hcol]
          show (match _execute_deletions cfg failAt cst.pks sess.db cst.count with
            | Except.error e =>
              (⟨sess.rollback, .error e, none, [], cst.pks⟩ : DeleteOutcome)
            | Except.ok est =>
              ⟨if c = true then ({ sess with db := est.db } : Session).commit
               else ({ sess with db := est.db } : Session).flushS,
               .ok (), none, est.stmts, cst.pks⟩) = _
          rw [hexec]
        rw [hout] at herr
        simp at herr

/-- C3 witness: a backend failure injected at the very first executed
statement of the end-to-end fixture rolls the session back untouched. -/
theorem c3_witness :
    (TenantDeleter.delete e2eCfg (fun _ => true) e2eSess false true).sess.rolledBack = true ∧
    (TenantDeleter.delete e2eCfg (fun _ => true) e2eSess false true).sess.db = e2eSess.db ∧
    (TenantDeleter.delete e2eCfg (fun _ => true) e2eSess false true).sess.base = e2eSess.base ∧
    (TenantDeleter.delete e2eCfg (fun _ => true) e2eSess false true).sess.committed =
      e2eSess.committed ∧
    (TenantDeleter.delete e2eCfg (fun _ => true) e2eSess false true).result =
      .error .executionError :=
  c3_rollback_on_error e2eCfg (fun _ => true) e2eSess false true .executionError rfl (by decide)

/-! ## Chunking lemmas -/

theorem chunkAux_flatten (b : Nat) : ∀ (fuel : Nat) (l : List PKTuple),
    l.length ≤ fuel → (chunkAux b fuel l).flatten = l
  | fuel, [], _ => by cases fuel <;> rfl
  | 0, a :: l, h => by simp at h
  | fuel+1, a :: l, h => by
    show ((a :: l.take (b - 1)) :: chunkAux b fuel (l.drop (b - 1))).flatten = a :: l
    have hrec := chunkAux_flatten b fuel (l.drop (b - 1)) (by
      simp only [List.length_drop, List.length_cons] at h ⊢
      omega)
    simp [List.flatten_cons, hrec]

theorem chunkAux_length (b : Nat) (hb : 1 ≤ b) : ∀ (fuel : Nat) (l : List PKTuple),
    l.length ≤ fuel → (chunkAux b fuel l).length = (l.length + b - 1) / b
  | fuel, [], _ => by
    cases fuel <;>
      simp [chunkAux, Nat.div_eq_of_lt (by omega : b - 1 < b)]
  | 0, a :: l, h => by simp at h
  | fuel+1, a :: l, h => by
    show ((a :: l.take (b - 1)) :: chunkAux b fuel (l.drop (b - 1))).length =
      ((a :: l).length + b - 1) / b
    have hrec := chunkAux_length b hb fuel (l.drop (b - 1)) (by
      simp only [List.length_drop, List.length_cons] at h ⊢
      omega)
    simp only [List.length_cons, hrec, List.length_drop]
    by_cases hcase : b - 1 ≤ l.length
    · have h1 : l.length - (b - 1) + b - 1 = l.length := by omega
      have h2 : l.length + 1 + b - 1 = l.length + b := by omega
      rw [h1, h2, Nat.add_div_right _ (by omega)]
    · have h1 : l.length - (b - 1) = 0 := by omega
      have h2 : l.length + 1 + b - 1 = l.length + b := by omega
      rw [h1, h2, Nat.add_div_right _ (by omega)]
      simp [Nat.div_eq_of_lt (by omega : b - 1 < b), Nat.div_eq_of_lt (by omega : l.length < b)]

theorem chunkAux_sizes (b : Nat) (hb : 1 ≤ b) : ∀ (fuel : Nat) (l : List PKTuple),
    l.length ≤ fuel → ∀ ch ∈ chunkAux b fuel l, ch.length ≤ b
  | fuel, [], _ => by cases fuel <;> simp [chunkAux]
  | 0, a :: l, h => by simp at h
  | fuel+1, a :: l, h => by
    show ∀ ch ∈ (a :: l.take (b - 1)) :: chunkAux b fuel (l.drop (b - 1)), ch.length ≤ b
    intro ch hch
    rcases List.mem_cons.mp hch with rfl | hch
    · simp only [List.length_cons, List.length_take]
      omega
    · exact chunkAux_sizes b hb fuel (l.drop (b - 1)) (by
        simp only [List.length_drop, List.length_cons] at h ⊢
        omega) ch hch

theorem chunkList_flatten (b : Nat) (l : List PKTuple) : (chunkList b l).flatten = l :=
  chunkAux_flatten b l.length l (Nat.le_refl _)

theorem chunkList_length (b : Nat) (hb : 1 ≤ b) (l : List PKTuple) :
    (chunkList b l).length = (l.length + b - 1) / b :=
  chunkAux_length b hb l.length l (Nat.le_refl _)

theorem chunkList_sizes (b : Nat) (hb : 1 ≤ b) (l : List PKTuple) :
    ∀ ch ∈ chunkList b l, ch.length ≤ b :=
  chunkAux_sizes b hb l.length l (Nat.le_refl _)

theorem effBatchSize_pos (cfg : TenantWiperConfig) : 1 ≤ effBatchSize cfg := by
  unfold effBatchSize
  cases cfg.batch_size with
  | none => decide
  | some b =>
    cases b with
    | zero => decide
    | succ n =>
      show 1 ≤ if (false = true) then 500 else (n + 1)
      rw [if_neg Bool.false_ne_true]
      omega

/-! ## Phase-2 fault-free runs compute the pure fold -/

theorem execBatch_no_fail (table : TableDef) (st : ExecSt) (batch : List PKTuple) :
    execBatch (fun _ => false) table st batch = .ok (execBatchPure table st batch) := rfl

theorem foldBatches_no_fail (table : TableDef) : ∀ (chunks : List (List PKTuple)) (st : ExecSt),
    chunks.foldlM (execBatch (fun _ => false) table) st =
      .ok (chunks.foldl (execBatchPure table) st)
  | [], st => rfl
  | ch :: chunks, st => by
    rw [List.foldlM_cons, execBatch_no_fail]
    show chunks.foldlM (execBatch (fun _ => false) table) (execBatchPure table st ch) = _
    rw [foldBatches_no_fail table chunks (execBatchPure table st ch)]
    rfl

theorem execTable_no_fail (cfg : TenantWiperConfig) (pksMap : List (String × List PKTuple))
    (st : ExecSt) (t : TableDef) :
    execTable cfg (fun _ => false) pksMap st t = .ok (execTablePure cfg pksMap st t) := by
  unfold execTable execTablePure
  cases h : pksMapFind? pksMap t.name with
  | none => rfl
  | some pks =>
    show (if pks.isEmpty = true then pure st
        else List.foldlM (execBatch (fun _ => false) t) st (chunkList (effBatchSize cfg) pks)) =
      Except.ok (if pks.isEmpty = true then st
        else List.foldl (execBatchPure t) st (chunkList (effBatchSize cfg) pks))
    by_cases he : pks.isEmpty = true
    · rw [if_pos he, if_pos he]
      rfl
    · rw [if_neg he, if_neg he]
      exact foldBatches_no_fail t _ st

theorem foldTables_no_fail (cfg : TenantWiperConfig) (pksMap : List (String × List PKTuple)) :
    ∀ (l : List TableDef) (st : ExecSt),
    l.foldlM (execTable cfg (fun _ => false) pksMap) st =
      .ok (l.foldl (execTablePure cfg pksMap) st)
  | [], st => rfl
  | t :: l, st => by
    rw [List.foldlM_cons, execTable_no_fail]
    show l.foldlM (execTable cfg (fun _ => false) pksMap) (execTablePure cfg pksMap st t) = _
    rw [foldTables_no_fail cfg pksMap l (execTablePure cfg pksMap st t)]
    rfl

theorem execute_deletions_no_fail (cfg : TenantWiperConfig)
    (pksMap : List (String × List PKTuple)) (db0 : Database) (c0 : Nat) :
    _execute_deletions cfg (fun _ => false) pksMap db0 c0 =
      .ok ((reversedTables cfg).foldl (execTablePure cfg pksMap) ⟨c0, db0, []⟩) := by
  unfold _execute_deletions
  exact foldTables_no_fail cfg pksMap (reversedTables cfg) ⟨c0, db0, []⟩

/-! ## Phase-2 statement bookkeeping -/

theorem foldBatches_stmts (table : TableDef) : ∀ (chunks : List (List PKTuple)) (st : ExecSt),
    (chunks.foldl (execBatchPure table) st).stmts =
      st.stmts ++ chunks.map (fun b => (⟨table.name, b⟩ : DeleteStmt))
  | [], st => by simp
  | ch :: chunks, st => by
    rw [List.foldl_cons, foldBatches_stmts table chunks]
    simp [execBatchPure]

theorem tableStmts_none (cfg : TenantWiperConfig) (pksMap : List (String × List PKTuple))
    (t : TableDef) (h : pksMapFind? pksMap t.name = none) :
    tableStmts cfg pksMap t = [] := by
  unfold tableStmts
  rw [h]

theorem tableStmts_eq (cfg : TenantWiperConfig) (pksMap : List (String × List PKTuple))
    (t : TableDef) (pks : List PKTuple) (h : pksMapFind? pksMap t.name = some pks) :
    tableStmts cfg pksMap t =
      (chunkList (effBatchSize cfg) pks).map (fun b => (⟨t.name, b⟩ : DeleteStmt)) := by
  unfold tableStmts
  rw [h]
  show (if pks.isEmpty = true then [] else _) = _
  by_cases he : pks.isEmpty = true
  · rw [if_pos he]
    cases pks with
    | nil => rfl
    | cons a l => simp at he
  · rw [if_neg he]

theorem execTablePure_stmts (cfg : TenantWiperConfig) (pksMap : List (String × List PKTuple))
    (st : ExecSt) (t : TableDef) :
    (execTablePure cfg pksMap st t).stmts = st.stmts ++ tableStmts cfg pksMap t := by
  unfold execTablePure tableStmts
  cases h : pksMapFind? pksMap t.name with
  | none => simp
  | some pks =>
    show (if pks.isEmpty = true then st
        else (chunkList (effBatchSize cfg) pks).foldl (execBatchPure t) st).stmts =
      st.stmts ++ (if pks.isEmpty = true then []
        else (chunkList (effBatchSize cfg) pks).map (fun b => (⟨t.name, b⟩ : DeleteStmt)))
    by_cases he : pks.isEmpty = true
    · rw [if_pos he, if_pos he]
      simp
    · rw [if_neg he, if_neg he]
      exact foldBatches_stmts t _ st

theorem foldTables_stmts (cfg : TenantWiperConfig) (pksMap : List (String × List PKTuple)) :
    ∀ (l : List TableDef) (st : ExecSt),
    (l.foldl (execTablePure cfg pksMap) st).stmts =
      st.stmts ++ l.flatMap (tableStmts cfg pksMap)
  | [], st => by simp
  | t :: l, st => by
    rw [List.foldl_cons, foldTables_stmts cfg pksMap l, execTablePure_stmts]
    simp [List.append_assoc]

theorem tableStmts_table (cfg : TenantWiperConfig) (pksMap : List (String × List PKTuple))
    (t : TableDef) : ∀ s ∈ tableStmts cfg pksMap t, s.table = t.name := by
  intro s hs
  cases h : pksMapFind? pksMap t.name with
  | none =>
    rw [tableStmts_none cfg pksMap t h] at hs
    simp at hs
  | some pks =>
    rw [tableStmts_eq cfg pksMap t pks h] at hs
    simp only [List.mem_map] at hs
    obtain ⟨b, _, rfl⟩ := hs
    rfl

theorem flatMap_stmts_filter_of_ne (cfg : TenantWiperConfig)
    (pksMap : List (String × List PKTuple)) (T : String) : ∀ (l : List TableDef),
    (∀ t ∈ l, t.name ≠ T) →
    (l.flatMap (tableStmts cfg pksMap)).filter (fun s => s.table == T) = []
  | [], _ => rfl
  | t :: l, h => by
    rw [List.flatMap_cons, List.filter_append]
    rw [flatMap_stmts_filter_of_ne cfg pksMap T l
      (fun t' ht' => h t' (List.mem_cons_of_mem t ht'))]
    rw [List.append_nil]
    rw [List.filter_eq_nil_iff.mpr]
    intro s hs
    simp only [tableStmts_table cfg pksMap t s hs, beq_iff_eq]
    exact h t (List.mem_cons_self t l)

theorem flatMap_stmts_filter (cfg : TenantWiperConfig)
    (pksMap : List (String × List PKTuple)) (tdef : TableDef) : ∀ (l : List TableDef),
    (l.map (·.name)).Nodup → tdef ∈ l →
    (l.flatMap (tableStmts cfg pksMap)).filter (fun s => s.table == tdef.name) =
      tableStmts cfg pksMap tdef
  | [], _, hmem => absurd hmem (List.not_mem_nil _)
  | t :: l, hnodup, hmem => by
    rw [List.flatMap_cons, List.filter_append]
    rw [List.map_cons, List.nodup_cons] at hnodup
    obtain ⟨hhead, htail⟩ := hnodup
    rcases List.mem_cons.mp hmem with rfl | hmem'
    · have h1 : (tableStmts cfg pksMap tdef).filter (fun s => s.table == tdef.name) =
          tableStmts cfg pksMap tdef := by
        rw [List.filter_eq_self.mpr]
        intro s hs
        simp [tableStmts_table cfg pksMap tdef s hs]
      have h2 : (l.flatMap (tableStmts cfg pksMap)).filter
          (fun s => s.table == tdef.name) = [] := by
        apply flatMap_stmts_filter_of_ne
        intro t' ht' heq
        exact hhead (heq ▸ List.mem_map_of_mem (·.name) ht')
      rw [h1, h2, List.append_nil]
    · have hne : t.name ≠ tdef.name := by
        intro heq
        exact hhead (heq ▸ List.mem_map_of_mem (·.name) hmem')
      have h1 : (tableStmts cfg pksMap t).filter (fun s => s.table == tdef.name) = [] := by
        rw [List.filter_eq_nil_iff.mpr]
        intro s hs
        simp only [tableStmts_table cfg pksMap t s hs, beq_iff_eq]
        exact hne
      rw [h1, List.nil_append]
      exact flatMap_stmts_filter cfg pksMap tdef l htail hmem'

/-! ## Phase-2 database effects -/

theorem dbRows_cons (a : String) (rs : List Row) (db : Database) (T : String) :
    dbRows ((a, rs) :: db) T = if (a == T) = true then rs else dbRows db T := by
  unfold dbRows
  by_cases h : (a == T) = true
  · rw [if_pos h]
    have hf : List.find? (fun p => p.1 == T) ((a, rs) :: db) = some (a, rs) :=
      List.find?_cons_of_pos _ h
    rw [hf]
    rfl
  · rw [if_neg h]
    have hf : List.find? (fun p => p.1 == T) ((a, rs) :: db) =
        List.find? (fun p => p.1 == T) db :=
      List.find?_cons_of_neg _ (by simpa using h)
    rw [hf]

theorem dbRows_deleteRows (db : Database) (n : String) (cols : List String)
    (keys : List PKTuple) (T : String) :
    dbRows (deleteRows db n cols keys) T =
      if (n == T) = true then
        (dbRows db T).filter (fun r => !keys.contains (pkTupleOf cols r))
      else dbRows db T := by
  induction db with
  | nil =>
    by_cases h : (n == T) = true <;> simp [deleteRows, dbRows, h]
  | cons e db ih =>
    obtain ⟨a, rs⟩ := e
    show dbRows ((if (a == n) = true
        then (a, rs.filter (fun r => !keys.contains (pkTupleOf cols r)))
        else (a, rs)) :: deleteRows db n cols keys) T =
      if (n == T) = true then
        (dbRows ((a, rs) :: db) T).filter (fun r => !keys.contains (pkTupleOf cols r))
      else dbRows ((a, rs) :: db) T
    by_cases han : (a == n) = true
    · rw [if_pos han, dbRows_cons, dbRows_cons]
      by_cases haT : (a == T) = true
      · have hnT : (n == T) = true := by
          have h1 : a = n := by simpa using han
          have h2 : a = T := by simpa using haT
          simp [← h1, h2]
        rw [if_pos haT, if_pos haT, if_pos hnT]
      · have hnT : (n == T) = false := by
          have h1 : a = n := by simpa using han
          rw [← h1]
          simpa using haT
        rw [if_neg haT, if_neg haT, hnT]
        show dbRows (deleteRows db n cols keys) T = if false = true then _ else dbRows db T
        rw [if_neg Bool.false_ne_true, ih, hnT]
        rw [if_neg Bool.false_ne_true]
    · rw [if_neg han, dbRows_cons, dbRows_cons]
      by_cases haT : (a == T) = true
      · have hnT : (n == T) = false := by
          have h2 : a = T := by simpa using haT
          rw [← h2]
          have h1 : a ≠ n := by simpa using han
          simpa using fun heq => h1 heq.symm
        rw [if_pos haT, if_pos haT, hnT]
        show rs = if false = true then _ else rs
        rw [if_neg Bool.false_ne_true]
      · rw [if_neg haT, if_neg haT, ih]

theorem fold_deleteRows_chunks (n : String) (cols : List String) :
    ∀ (chunks : List (List PKTuple)) (db : Database) (T : String),
    dbRows (chunks.foldl (fun d b => deleteRows d n cols b) db) T =
      if (n == T) = true then
        (dbRows db T).filter (fun r => !(chunks.flatten).contains (pkTupleOf cols r))
      else dbRows db T
  | [], db, T => by
    by_cases h : (n == T) = true <;> simp [h]
  | ch :: chunks, db, T => by
    rw [List.foldl_cons]
    rw [fold_deleteRows_chunks n cols chunks (deleteRows db n cols ch) T]
    by_cases h : (n == T) = true
    · rw [if_pos h, if_pos h, dbRows_deleteRows, if_pos h, List.filter_filter]
      apply List.filter_congr
      intro r _
      show ((!(chunks.flatten).contains (pkTupleOf cols r)) &&
          (!ch.contains (pkTupleOf cols r))) =
        !(((ch :: chunks).flatten).contains (pkTupleOf cols r))
      rw [List.flatten_cons]
      cases hc1 : ch.contains (pkTupleOf cols r) <;>
        cases hc2 : (chunks.flatten).contains (pkTupleOf cols r) <;>
          simp_all [List.mem_append]
    · rw [if_neg h, if_neg h, dbRows_deleteRows, if_neg h]

theorem foldBatches_db (table : TableDef) : ∀ (chunks : List (List PKTuple)) (st : ExecSt),
    (chunks.foldl (execBatchPure table) st).db =
      chunks.foldl (fun d b => deleteRows d table.name table.primary_key b) st.db
  | [], st => rfl
  | ch :: chunks, st => by
    rw [List.foldl_cons, List.foldl_cons, foldBatches_db table chunks]
    rfl

theorem execTablePure_db_frame (cfg : TenantWiperConfig)
    (pksMap : List (String × List PKTuple)) (st : ExecSt) (t : TableDef) (T : String)
    (hne : (t.name == T) = false) :
    dbRows (execTablePure cfg pksMap st t).db T = dbRows st.db T := by
  unfold execTablePure
  cases h : pksMapFind? pksMap t.name with
  | none => rfl
  | some pks =>
    show dbRows (if pks.isEmpty = true then st
        else (chunkList (effBatchSize cfg) pks).foldl (execBatchPure t) st).db T =
      dbRows st.db T
    by_cases he : pks.isEmpty = true
    · rw [if_pos he]
    · rw [if_neg he, foldBatches_db, fold_deleteRows_chunks,
        if_neg (by simp [hne])]

theorem execTablePure_db_self (cfg : TenantWiperConfig)
    (pksMap : List (String × List PKTuple)) (st : ExecSt) (t : TableDef)
    (pks : List PKTuple) (h : pksMapFind? pksMap t.name = some pks) :
    dbRows (execTablePure cfg pksMap st t).db t.name =
      (dbRows st.db t.name).filter (fun r => !pks.contains (pkTupleOf t.primary_key r)) := by
  unfold execTablePure
  rw [h]
  show dbRows (if pks.isEmpty = true then st
      else (chunkList (effBatchSize cfg) pks).foldl (execBatchPure t) st).db t.name = _
  by_cases he : pks.isEmpty = true
  · rw [if_pos he]
    cases pks with
    | nil => simp
    | cons a l => simp at he
  · rw [if_neg he, foldBatches_db, fold_deleteRows_chunks, if_pos (by simp),
      chunkList_flatten]

theorem foldTables_db_frame (cfg : TenantWiperConfig)
    (pksMap : List (String × List PKTuple)) (T : String) : ∀ (l : List TableDef) (st : ExecSt),
    (∀ t ∈ l, t.name ≠ T) →
    dbRows (l.foldl (execTablePure cfg pksMap) st).db T = dbRows st.db T
  | [], st, _ => rfl
  | t :: l, st, h => by
    rw [List.foldl_cons]
    rw [foldTables_db_frame cfg pksMap T l _
      (fun t' ht' => h t' (List.mem_cons_of_mem t ht'))]
    exact execTablePure_db_frame cfg pksMap st t T
      (by simpa using h t (List.mem_cons_self t l))

theorem foldTables_db_main (cfg : TenantWiperConfig)
    (pksMap : List (String × List PKTuple)) (tdef : TableDef) (pks : List PKTuple) :
    ∀ (l : List TableDef) (st : ExecSt),
    (l.map (·.name)).Nodup → tdef ∈ l →
    pksMapFind? pksMap tdef.name = some pks →
    dbRows (l.foldl (execTablePure cfg pksMap) st).db tdef.name =
      (dbRows st.db tdef.name).filter
        (fun r => !pks.contains (pkTupleOf tdef.primary_key r))
  | [], _, _, hmem, _ => absurd hmem (List.not_mem_nil _)
  | t :: l, st, hnodup, hmem, hfind => by
    rw [List.foldl_cons]
    rw [List.map_cons, List.nodup_cons] at hnodup
    obtain ⟨hhead, htail⟩ := hnodup
    rcases List.mem_cons.mp hmem with rfl | hmem'
    · have hframe : ∀ t' ∈ l, t'.name ≠ tdef.name := by
        intro t' ht' heq
        exact hhead (heq ▸ List.mem_map_of_mem (·.name) ht')
      rw [foldTables_db_frame cfg pksMap tdef.name l _ hframe]
      exact execTablePure_db_self cfg pksMap st tdef pks hfind
    · have hne : (t.name == tdef.name) = false := by
        have : t.name ≠ tdef.name := by
          intro heq
          exact hhead (heq ▸ List.mem_map_of_mem (·.name) hmem')
        simpa using this
      rw [foldTables_db_main cfg pksMap tdef pks l _ htail hmem' hfind,
        execTablePure_db_frame cfg pksMap st t tdef.name hne]

/-! ## C7: Phase-2 batching -/

/-- C7: in a fault-free Phase 2, for a table with collected PKs `pks` and
effective batch size `b`, the statements issued for that table are
exactly one IN-delete per chunk of `pks`; there are `⌈|pks| / b⌉` of
them, each over at most `b` keys; the chunks concatenate back to the
collected key list (a partition when the keys are distinct); their
combined effect removes from the table exactly the rows whose pk tuple
was collected; and a configuration built without a `batch_size` argument
defaults to 500. -/
theorem c7_batching (cfg : TenantWiperConfig) (pksMap : List (String × List PKTuple))
    (db0 : Database) (c0 : Nat) (tdef : TableDef) (pks : List PKTuple)
    (hnodup : (cfg.base.metadata.sorted_tables.map (·.name)).Nodup)
    (hmem : tdef ∈ cfg.base.metadata.sorted_tables)
    (hpks : pksMapFind? pksMap tdef.name = some pks) :
    _execute_deletions cfg (fun _ => false) pksMap db0 c0 =
      .ok ((reversedTables cfg).foldl (execTablePure cfg pksMap) ⟨c0, db0, []⟩) ∧
    ((reversedTables cfg).foldl (execTablePure cfg pksMap) ⟨c0, db0, []⟩).stmts.filter
        (fun s => s.table == tdef.name) =
      (chunkList (effBatchSize cfg) pks).map (fun b => (⟨tdef.name, b⟩ : DeleteStmt)) ∧
    (chunkList (effBatchSize cfg) pks).length =
      (pks.length + effBatchSize cfg - 1) / effBatchSize cfg ∧
    (∀ batch ∈ chunkList (effBatchSize cfg) pks, batch.length ≤ effBatchSize cfg) ∧
    (chunkList (effBatchSize cfg) pks).flatten = pks ∧
    dbRows ((reversedTables cfg).foldl (execTablePure cfg pksMap) ⟨c0, db0, []⟩).db
        tdef.name =
      (dbRows db0 tdef.name).filter
        (fun r => !pks.contains (pkTupleOf tdef.primary_key r)) ∧
    (∀ b : DeclarativeBase, ({ base := b } : TenantWiperConfig).batch_size = some 500 ∧
      effBatchSize { base := b } = 500) := by
  have hrevnodup : ((reversedTables cfg).map (·.name)).Nodup := by
    unfold reversedTables
    rw [List.map_reverse]
    exact List.nodup_reverse.mpr hnodup
  have hrevmem : tdef ∈ reversedTables cfg := by
    unfold reversedTables
    exact List.mem_reverse.mpr hmem
  refine ⟨execute_deletions_no_fail cfg pksMap db0 c0, ?_, ?_, ?_, ?_, ?_, ?_⟩
  · rw [foldTables_stmts]
    show (([] : List DeleteStmt) ++
        (reversedTables cfg).flatMap (tableStmts cfg pksMap)).filter
        (fun s => s.table == tdef.name) = _
    rw [List.nil_append,
      flatMap_stmts_filter cfg pksMap tdef (reversedTables cfg) hrevnodup hrevmem,
      tableStmts_eq cfg pksMap tdef pks hpks]
  · exact chunkList_length (effBatchSize cfg) (effBatchSize_pos cfg) pks
  · exact chunkList_sizes (effBatchSize cfg) (effBatchSize_pos cfg) pks
  · exact chunkList_flatten (effBatchSize cfg) pks
  · exact foldTables_db_main cfg pksMap tdef pks (reversedTables cfg) ⟨c0, db0, []⟩
      hrevnodup hrevmem hpks
  · intro b
    exact ⟨rfl, rfl⟩

/-- C7 witness: batch size 2 over a table with five collected keys issues
three statements of at most two keys each whose union removes exactly the
five collected rows. -/
theorem c7_witness :
    _execute_deletions batchCfg (fun _ => false) batchMap batchDb 0 =
      .ok ((reversedTables batchCfg).foldl (execTablePure batchCfg batchMap)
        ⟨0, batchDb, []⟩) ∧
    ((reversedTables batchCfg).foldl (execTablePure batchCfg batchMap)
        ⟨0, batchDb, []⟩).stmts.filter (fun s => s.table == usersT.name) =
      (chunkList (effBatchSize batchCfg) batchPks).map
        (fun b => (⟨usersT.name, b⟩ : DeleteStmt)) ∧
    (chunkList (effBatchSize batchCfg) batchPks).length =
      (batchPks.length + effBatchSize batchCfg - 1) / effBatchSize batchCfg ∧
    (∀ batch ∈ chunkList (effBatchSize batchCfg) batchPks,
      batch.length ≤ effBatchSize batchCfg) ∧
    (chunkList (effBatchSize batchCfg) batchPks).flatten = batchPks ∧
    dbRows ((reversedTables batchCfg).foldl (execTablePure batchCfg batchMap)
        ⟨0, batchDb, []⟩).db usersT.name =
      (dbRows batchDb usersT.name).filter
        (fun r => !batchPks.contains (pkTupleOf usersT.primary_key r)) ∧
    (∀ b : DeclarativeBase, ({ base := b } : TenantWiperConfig).batch_size = some 500 ∧
      effBatchSize { base := b } = 500) :=
  c7_batching batchCfg batchMap batchDb 0 usersT batchPks
    (by decide) (by decide) (by decide)

/-! ## Query semantics: membership and shape -/

theorem joinFold_fst (db : Database) (S : List Row) : ∀ (steps : List JoinStep)
    (pairs : List (Row × Row)),
    (∀ pr ∈ pairs, pr.1 ∈ S) →
    ∀ pr ∈ steps.foldl (joinStep1 db) pairs, pr.1 ∈ S
  | [], pairs, h => h
  | s :: steps, pairs, h => by
    rw [List.foldl_cons]
    apply joinFold_fst db S steps
    intro pr hpr
    unfold joinStep1 at hpr
    simp only [List.mem_flatMap, List.mem_filterMap] at hpr
    obtain ⟨pr0, hpr0, r2, _, heq⟩ := hpr
    cases h1 : rowGet pr0.2 s.from_key with
    | none =>
      rw [h1] at heq
      simp at heq
    | some v1 =>
      cases h2 : rowGet r2 s.to_key with
      | none =>
        rw [h1, h2] at heq
        simp at heq
      | some v2 =>
        rw [h1, h2] at heq
        have heq' : (if (v1 == v2) = true then some (pr0.1, r2) else none) = some pr := heq
        by_cases hv : (v1 == v2) = true
        · rw [if_pos hv] at heq'
          cases heq'
          exact h pr0 hpr0
        · rw [if_neg hv] at heq'
          simp at heq'

theorem evalSelect_mem (db : Database) (sq : SelectQ) (pk : PKTuple) :
    pk ∈ evalSelect db sq → ∃ r ∈ dbRows db sq.table, pk = pkTupleOf sq.pk_cols r := by
  unfold evalSelect
  intro h
  simp only [List.mem_map, List.mem_filter] at h
  obtain ⟨pr, ⟨hpr, _⟩, rfl⟩ := h
  have hfst := joinFold_fst db (dbRows db sq.table) sq.steps
    ((dbRows db sq.table).map (fun r => (r, r)))
    (by
      intro pr' hpr'
      simp only [List.mem_map] at hpr'
      obtain ⟨r, hr, rfl⟩ := hpr'
      exact hr)
    pr hpr
  exact ⟨pr.1, hfst, rfl⟩

theorem evalPKQuery_mem (db : Database) (q : PKQuery) (pk : PKTuple) :
    pk ∈ evalPKQuery db q → ∃ sq ∈ selectsOf q, pk ∈ evalSelect db sq := by
  cases q with
  | single sq =>
    intro h
    exact ⟨sq, by simp [selectsOf], h⟩
  | unionQ first rest =>
    intro h
    unfold evalPKQuery at h
    rw [List.mem_dedup] at h
    rcases List.mem_append.mp h with h1 | h2
    · exact ⟨first, by simp [selectsOf], h1⟩
    · simp only [List.mem_flatMap] at h2
      obtain ⟨sq, hsq, hmem⟩ := h2
      exact ⟨sq, by simp [selectsOf, hsq], hmem⟩

theorem pathLoopStep_sub (cfg : TenantWiperConfig) (t : TableDef) (acc : List SelectQ)
    (p : String) (acc' : List SelectQ) (h : pathLoopStep cfg t acc p = .ok acc') :
    ∀ sq ∈ acc', sq ∈ acc ∨ (sq.table = t.name ∧ sq.pk_cols = t.primary_key) := by
  unfold pathLoopStep at h
  intro sq hsq
  cases hp : _parse_join_path p with
  | error e =>
    rw [hp] at h
    have h' : (Except.ok acc : Except DeleteError (List SelectQ)) = .ok acc' := h
    injection h' with h'
    subst h'
    exact Or.inl hsq
  | ok parsed =>
    rw [hp] at h
    have h₁ : (if (parsed.start_table == t.name) = true then
        (match checkStepTables cfg.base.metadata parsed.steps with
        | .error e => (.error e : Except DeleteError (List SelectQ))
        | .ok _ =>
          match cfg.base.metadata.tablesFind? parsed.final_table with
          | none => .error (.pythonKeyError parsed.final_table)
          | some ft =>
            match applicableFilters cfg.tenant_filters ft with
            | .error e => .error e
            | .ok ffs =>
              if ffs.isEmpty then .ok acc
              else .ok (acc ++ [(⟨t.name, t.primary_key, parsed.steps, ffs⟩ : SelectQ)]))
      else .ok acc) = .ok acc' := h
    by_cases hstart : (parsed.start_table == t.name) = true
    · rw [if_pos hstart] at h₁
      cases hchk : checkStepTables cfg.base.metadata parsed.steps with
      | error e =>
        rw [hchk] at h₁
        have h₂ : (Except.error e : Except DeleteError (List SelectQ)) = .ok acc' := h₁
        simp at h₂
      | ok u =>
        rw [hchk] at h₁
        cases hft : cfg.base.metadata.tablesFind? parsed.final_table with
        | none =>
          rw [hft] at h₁
          have h₂ : (Except.error (DeleteError.pythonKeyError parsed.final_table) :
              Except DeleteError (List SelectQ)) = .ok acc' := h₁
          simp at h₂
        | some ft =>
          rw [hft] at h₁
          have h₁a : (match applicableFilters cfg.tenant_filters ft with
              | Except.error e => (Except.error e : Except DeleteError (List SelectQ))
              | Except.ok ffs =>
                if ffs.isEmpty = true then Except.ok acc
                else Except.ok (acc ++
                  [(⟨t.name, t.primary_key, parsed.steps, ffs⟩ : SelectQ)])) =
            .ok acc' := h₁
          cases happ : applicableFilters cfg.tenant_filters ft with
          | error e =>
            rw [happ] at h₁a
            have h₂ : (Except.error e : Except DeleteError (List SelectQ)) = .ok acc' := h₁a
            simp at h₂
          | ok ffs =>
            rw [happ] at h₁a
            have h₂ : (if ffs.isEmpty = true then (Except.ok acc : Except DeleteError (List SelectQ))
                else .ok (acc ++ [(⟨t.name, t.primary_key, parsed.steps, ffs⟩ : SelectQ)])) =
              .ok acc' := h₁a
            by_cases hffs : ffs.isEmpty = true
            · rw [if_pos hffs] at h₂
              injection h₂ with h₂
              subst h₂
              exact Or.inl hsq
            · rw [if_neg hffs] at h₂
              injection h₂ with h₂
              subst h₂
              rcases List.mem_append.mp hsq with h1 | h2
              · exact Or.inl h1
              · right
                simp only [List.mem_singleton] at h2
                subst h2
                exact ⟨rfl, rfl⟩
    · rw [if_neg hstart] at h₁
      injection h₁ with h₁
      subst h₁
      exact Or.inl hsq

theorem pathLoop_shape (cfg : TenantWiperConfig) (t : TableDef) :
    ∀ (ps : List String) (acc pq : List SelectQ),
    (∀ sq ∈ acc, sq.table = t.name ∧ sq.pk_cols = t.primary_key) →
    ps.foldlM (pathLoopStep cfg t) acc = .ok pq →
    ∀ sq ∈ pq, sq.table = t.name ∧ sq.pk_cols = t.primary_key
  | [], acc, pq, hacc, h => by
    simp only [List.foldlM_nil] at h
    injection h with h
    subst h
    exact hacc
  | p :: ps, acc, pq, hacc, h => by
    rw [List.foldlM_cons] at h
    cases hstep : pathLoopStep cfg t acc p with
    | error e =>
      rw [hstep] at h
      have h' : (Except.error e : Except DeleteError (List SelectQ)) = .ok pq := h
      simp at h'
    | ok acc' =>
      rw [hstep] at h
      have h' : ps.foldlM (pathLoopStep cfg t) acc' = .ok pq := h
      apply pathLoop_shape cfg t ps acc' pq ?_ h'
      intro sq hsq
      rcases pathLoopStep_sub cfg t acc p acc' hstep sq hsq with h1 | h2
      · exact hacc sq h1
      · exact h2

theorem build_query_selects (cfg : TenantWiperConfig) (t : TableDef) (q : PKQuery)
    (h : _build_pk_collection_query cfg t = .ok (some q)) :
    ∀ sq ∈ selectsOf q, sq.table = t.name ∧ sq.pk_cols = t.primary_key := by
  unfold _build_pk_collection_query at h
  by_cases hpk : t.primary_key.isEmpty = true
  · rw [if_pos hpk] at h
    simp at h
  · rw [if_neg hpk] at h
    cases happ : applicableFilters cfg.tenant_filters t with
    | error e =>
      rw [happ] at h
      have h' : (Except.error e : Except DeleteError (Option PKQuery)) = .ok (some q) := h
      simp at h'
    | ok applicable =>
      rw [happ] at h
      have h₁ : (if (!applicable.isEmpty) = true then
          (Except.ok (some (PKQuery.single ⟨t.name, t.primary_key, [], applicable⟩)) :
            Except DeleteError (Option PKQuery))
        else
          match dictFind? cfg.relationshipDict t.name with
          | none => .ok none
          | some path_strings =>
            match path_strings.foldlM (pathLoopStep cfg t) [] with
            | .error e => .error e
            | .ok path_queries =>
              match path_queries with
              | [] => .ok none
              | [q0] => .ok (some (.single q0))
              | q0 :: qs => .ok (some (.unionQ q0 qs))) = .ok (some q) := h
      by_cases hae : (!applicable.isEmpty) = true
      · rw [if_pos hae] at h₁
        injection h₁ with h₁
        injection h₁ with h₁
        subst h₁
        intro sq hsq
        simp only [selectsOf, List.mem_singleton] at hsq
        subst hsq
        exact ⟨rfl, rfl⟩
      · rw [if_neg hae] at h₁
        cases hdict : dictFind? cfg.relationshipDict t.name with
        | none =>
          rw [hdict] at h₁
          have h₂ : (Except.ok none : Except DeleteError (Option PKQuery)) = .ok (some q) := h₁
          simp at h₂
        | some path_strings =>
          rw [hdict] at h₁
          have h₁a : (match path_strings.foldlM (pathLoopStep cfg t) [] with
              | Except.error e => (Except.error e : Except DeleteError (Option PKQuery))
              | Except.ok path_queries =>
                match path_queries with
                | [] => Except.ok none
                | [q0] => Except.ok (some (PKQuery.single q0))
                | q0 :: qs => Except.ok (some (PKQuery.unionQ q0 qs))) =
            .ok (some q) := h₁
          cases hfold : path_strings.foldlM (pathLoopStep cfg t) [] with
          | error e =>
            rw [hfold] at h₁a
            have h₂ : (Except.error e : Except DeleteError (Option PKQuery)) = .ok (some q) := h₁a
            simp at h₂
          | ok path_queries =>
            rw [hfold] at h₁a
            have hshape := pathLoop_shape cfg t path_strings [] path_queries (by simp) hfold
            cases path_queries with
            | nil =>
              have h₂ : (Except.ok none : Except DeleteError (Option PKQuery)) = .ok (some q) := h₁a
              simp at h₂
            | cons q0 qs =>
              cases qs with
              | nil =>
                have h₂ : (Except.ok (some (PKQuery.single q0)) :
                    Except DeleteError (Option PKQuery)) = .ok (some q) := h₁a
                injection h₂ with h₂
                injection h₂ with h₂
                subst h₂
                intro sq hsq
                simp only [selectsOf, List.mem_singleton] at hsq
                rw [hsq]
                exact hshape q0 (List.mem_cons_self _ _)
              | cons q1 qs' =>
                have h₂ : (Except.ok (some (PKQuery.unionQ q0 (q1 :: qs'))) :
                    Except DeleteError (Option PKQuery)) = .ok (some q) := h₁a
                injection h₂ with h₂
                injection h₂ with h₂
                subst h₂
                intro sq hsq
                simp only [selectsOf] at hsq
                exact hshape sq hsq

/-! ## Phase-1 collected-key facts -/

theorem pksMapFind?_cons (a : String) (v : List PKTuple)
    (m : List (String × List PKTuple)) (name : String) :
    pksMapFind? ((a, v) :: m) name =
      if (a == name) = true then some v else pksMapFind? m name := by
  unfold pksMapFind?
  by_cases h : (a == name) = true
  · rw [if_pos h]
    have hf : List.find? (fun p => p.1 == name) ((a, v) :: m) = some (a, v) :=
      List.find?_cons_of_pos _ h
    rw [hf]
    rfl
  · rw [if_neg h]
    have hf : List.find? (fun p => p.1 == name) ((a, v) :: m) =
        List.find? (fun p => p.1 == name) m :=
      List.find?_cons_of_neg _ (by simpa using h)
    rw [hf]

theorem pksMapFind?_pksUpdate : ∀ (m : List (String × List PKTuple)) (t : String)
    (v : List PKTuple) (name : String),
    pksMapFind? (pksUpdate m t v) name =
      if (t == name) = true then some v else pksMapFind? m name
  | [], t, v, name => by
    show pksMapFind? [(t, v)] name = _
    rw [pksMapFind?_cons]
  | e :: m, t, v, name => by
    obtain ⟨a, w⟩ := e
    show pksMapFind? (if (a == t) = true then (a, v) :: m else (a, w) :: pksUpdate m t v) name = _
    by_cases het : (a == t) = true
    · rw [if_pos het, pksMapFind?_cons, pksMapFind?_cons]
      have ha : a = t := by simpa using het
      subst ha
      by_cases hen : (a == name) = true
      · rw [if_pos hen, if_pos hen]
      · rw [if_neg hen, if_neg hen, if_neg hen]
    · rw [if_neg het, pksMapFind?_cons, pksMapFind?_cons,
        pksMapFind?_pksUpdate m t v name]
      by_cases hen : (a == name) = true
      · have htn : (t == name) = false := by
          have h2 : a = name := by simpa using hen
          have h1 : a ≠ t := by simpa using het
          subst h2
          simpa using fun heq => h1 heq.symm
        rw [if_pos hen, htn, if_neg Bool.false_ne_true, if_pos hen]
      · rw [if_neg hen, if_neg hen]

theorem pksMapFind?_pksStore (m : List (String × List PKTuple)) (t : String)
    (v : List PKTuple) (name : String) :
    pksMapFind? (pksStore m t v) name =
      if (t == name) = true then
        some (if v.isEmpty then [] else (((pksMapFind? m t).getD []) ++ v).dedup)
      else pksMapFind? m name := by
  unfold pksStore
  exact pksMapFind?_pksUpdate m t _ name

/-- Invariant of the Phase-1 fold: every entry of `pks_to_delete` holds a
duplicate-free set of pk tuples, each of which is the pk tuple of an
actual row of the named table. -/
theorem collect_fold_inv (cfg : TenantWiperConfig) (failAt : Nat → Bool) (db : Database) :
    ∀ (l : List TableDef) (st cst : CollectSt),
    (∀ t ∈ l, t ∈ cfg.base.metadata.sorted_tables) →
    (∀ name pks, pksMapFind? st.pks name = some pks →
      pks.Nodup ∧ ∀ pk ∈ pks, ∃ tdef ∈ cfg.base.metadata.sorted_tables,
        tdef.name = name ∧ ∃ r ∈ dbRows db name, pk = pkTupleOf tdef.primary_key r) →
    l.foldlM (collectTable cfg failAt db) st = .ok cst →
    ∀ name pks, pksMapFind? cst.pks name = some pks →
      pks.Nodup ∧ ∀ pk ∈ pks, ∃ tdef ∈ cfg.base.metadata.sorted_tables,
        tdef.name = name ∧ ∃ r ∈ dbRows db name, pk = pkTupleOf tdef.primary_key r
  | [], st, cst, _, hinv, h => by
    simp only [List.foldlM_nil] at h
    injection h with h
    subst h
    exact hinv
  | t :: l, st, cst, hsub, hinv, h => by
    rw [List.foldlM_cons] at h
    cases hstep : collectTable cfg failAt db st t with
    | error e =>
      rw [hstep] at h
      have h' : (Except.error e : Except DeleteError CollectSt) = .ok cst := h
      simp at h'
    | ok st' =>
      rw [hstep] at h
      have h' : l.foldlM (collectTable cfg failAt db) st' = .ok cst := h
      refine collect_fold_inv cfg failAt db l st' cst
        (fun t' ht' => hsub t' (List.mem_cons_of_mem t ht')) ?_ h'
      unfold collectTable at hstep
      by_cases hexcl : cfg.excluded_tables.contains t.name = true
      · rw [if_pos hexcl] at hstep
        injection hstep with hstep
        subst hstep
        exact hinv
      · rw [if_neg hexcl] at hstep
        cases hq : _build_pk_collection_query cfg t with
        | error e =>
          rw [hq] at hstep
          have hc : (Except.error e : Except DeleteError CollectSt) = .ok st' := hstep
          simp at hc
        | ok oq =>
          rw [hq] at hstep
          cases oq with
          | none =>
            have hc : (Except.error (DeleteError.noQueryForTable t.name) :
                Except DeleteError CollectSt) = .ok st' := hstep
            simp at hc
          | some q =>
            have hstep' : (if failAt st.count = true then
                (Except.error DeleteError.executionError : Except DeleteError CollectSt)
              else .ok ⟨st.count + 1, pksStore st.pks t.name (evalPKQuery db q)⟩) =
              .ok st' := hstep
            by_cases hfail : failAt st.count = true
            · rw [if_pos hfail] at hstep'
              simp at hstep'
            · rw [if_neg hfail] at hstep'
              injection hstep' with hstep'
              subst hstep'
              intro name pks hfind
              have hfind' : pksMapFind? (pksStore st.pks t.name (evalPKQuery db q)) name =
                  some pks := hfind
              rw [pksMapFind?_pksStore] at hfind'
              by_cases htn : (t.name == name) = true
              · have hteq : t.name = name := by simpa using htn
                subst hteq
                rw [if_pos htn] at hfind'
                injection hfind' with hfind'
                subst hfind'
                by_cases hemp : (evalPKQuery db q).isEmpty = true
                · rw [if_pos hemp]
                  exact ⟨List.nodup_nil, by simp⟩
                · rw [if_neg hemp]
                  constructor
                  · exact List.nodup_dedup _
                  · intro pk hpk
                    rw [List.mem_dedup] at hpk
                    rcases List.mem_append.mp hpk with hold | hnew
                    · cases hfindold : pksMapFind? st.pks t.name with
                      | none =>
                        rw [hfindold] at hold
                        simp at hold
                      | some old =>
                        rw [hfindold] at hold
                        exact (hinv t.name old hfindold).2 pk (by simpa using hold)
                    · obtain ⟨sq, hsq, hmem⟩ := evalPKQuery_mem db q pk hnew
                      obtain ⟨hst, hpc⟩ := build_query_selects cfg t q hq sq hsq
                      obtain ⟨r, hr, hpk'⟩ := evalSelect_mem db sq pk hmem
                      refine ⟨t, hsub t (List.mem_cons_self t l), rfl, r, ?_, ?_⟩
                      · rw [← hst]
                        exact hr
                      · rw [hpk', hpc]
              · rw [if_neg htn] at hfind'
                exact hinv name pks hfind'

/-! ## Counting deleted rows -/

theorem filter_length_split (l : List Row) (p : Row → Bool) :
    (l.filter p).length + (l.filter (fun a => !(p a))).length = l.length := by
  induction l with
  | nil => rfl
  | cons a l ih =>
    by_cases h : p a = true <;> simp [h, List.filter_cons] <;> omega

theorem count_nodup_subset (L S : List PKTuple) (hL : L.Nodup) (hS : S.Nodup)
    (hsub : ∀ x ∈ S, x ∈ L) :
    (L.filter (fun x => S.contains x)).length = S.length := by
  have h1 : (L.filter (fun x => S.contains x)).toFinset.card =
      (L.filter (fun x => S.contains x)).length :=
    List.toFinset_card_of_nodup (hL.filter _)
  have h2 : (L.filter (fun x => S.contains x)).toFinset = S.toFinset := by
    rw [List.toFinset_filter]
    ext x
    simp only [Finset.mem_filter, List.mem_toFinset]
    constructor
    · rintro ⟨_, hx⟩
      simpa using hx
    · intro hx
      exact ⟨hsub x hx, by simpa using hx⟩
  have h3 : S.toFinset.card = S.length := List.toFinset_card_of_nodup hS
  rw [← h1, h2, h3]

theorem rows_count (rows : List Row) (cols : List String) (S : List PKTuple)
    (hrows : (rows.map (pkTupleOf cols)).Nodup) (hS : S.Nodup)
    (hsub : ∀ x ∈ S, x ∈ rows.map (pkTupleOf cols)) :
    (rows.filter (fun r => !S.contains (pkTupleOf cols r))).length + S.length =
      rows.length := by
  have hkeep : (rows.filter (fun r => S.contains (pkTupleOf cols r))).length = S.length := by
    have hmf : (rows.map (pkTupleOf cols)).filter (fun x => S.contains x) =
        (rows.filter (fun r => S.contains (pkTupleOf cols r))).map (pkTupleOf cols) := by
      rw [List.filter_map]
      rfl
    have := count_nodup_subset (rows.map (pkTupleOf cols)) S hrows hS hsub
    rw [hmf, List.length_map] at this
    exact this
  have hsplit := filter_length_split rows (fun r => S.contains (pkTupleOf cols r))
  omega

/-! ## C4: dry run -/

/-- C4: when Phase 1 succeeds, a dry run returns right after Phase 1: the
session is untouched (no delete statement, no commit, no rollback, no
flush, database states unchanged), and the report maps each collected
table to the size of its collected PK set — which, for every table with
distinct row pk tuples, equals the number of rows a non-dry run with the
same configuration and data removes from that table. -/
theorem c4_dry_run (cfg : TenantWiperConfig) (sess : Session) (c : Bool) (cst : CollectSt)
    (hcollect : _collect_pks_to_delete cfg (fun _ => false) sess.db = .ok cst)
    (hnodup : (cfg.base.metadata.sorted_tables.map (·.name)).Nodup)
    (hrowpks : ∀ t ∈ cfg.base.metadata.sorted_tables,
      ((dbRows sess.db t.name).map (pkTupleOf t.primary_key)).Nodup) :
    (TenantDeleter.delete cfg (fun _ => false) sess true c).sess = sess ∧
    (TenantDeleter.delete cfg (fun _ => false) sess true c).result = .ok () ∧
    (TenantDeleter.delete cfg (fun _ => false) sess true c).stmts = [] ∧
    (TenantDeleter.delete cfg (fun _ => false) sess true c).report =
      some (cst.pks.map (fun p => (p.1, p.2.length))) ∧
    (TenantDeleter.delete cfg (fun _ => false) sess false c).result = .ok () ∧
    (∀ tdef ∈ cfg.base.metadata.sorted_tables, ∀ pks,
      pksMapFind? cst.pks tdef.name = some pks →
      (dbRows (TenantDeleter.delete cfg (fun _ => false) sess false c).sess.db
          tdef.name).length + pks.length =
        (dbRows sess.db tdef.name).length) := by
  have hout_dry : TenantDeleter.delete cfg (fun _ => false) sess true c =
      ⟨sess, .ok (), some (cst.pks.map (fun p => (p.1, p.2.length))), [], cst.pks⟩ := by
    unfold TenantDeleter.delete
    rw [hcollect]
    rfl
  have hexec := execute_deletions_no_fail cfg cst.pks sess.db cst.count
  have hout_real : TenantDeleter.delete cfg (fun _ => false) sess false c =
      ⟨if c = true then
          ({ sess with db := ((reversedTables cfg).foldl (execTablePure cfg cst.pks)
            ⟨cst.count, sess.db, []⟩).db } : Session).commit
        else
          ({ sess with db := ((reversedTables cfg).foldl (execTablePure cfg cst.pks)
            ⟨cst.count, sess.db, []⟩).db } : Session).flushS,
       .ok (), none,
       ((reversedTables cfg).foldl (execTablePure cfg cst.pks)
         ⟨cst.count, sess.db, []⟩).stmts, cst.pks⟩ := by
    unfold TenantDeleter.delete
    rw [hcollect]
    show (match _execute_deletions cfg (fun _ => false) cst.pks sess.db cst.count with
      | Except.error e => (⟨sess.rollback, .error e, none, [], cst.pks⟩ : DeleteOutcome)
      | Except.ok est =>
        ⟨if c = true then ({ sess with db := est.db } : Session).commit
         else ({ sess with db := est.db } : Session).flushS,
         .ok (), none, est.stmts, cst.pks⟩) = _
    rw [hexec]
  have hrevnodup : ((reversedTables cfg).map (·.name)).Nodup := by
    unfold reversedTables
    rw [List.map_reverse]
    exact List.nodup_reverse.mpr hnodup
  refine ⟨by rw [hout_dry], by rw [hout_dry], by rw [hout_dry], by rw [hout_dry],
    by rw [hout_real], ?_⟩
  intro tdef hmem pks hfind
  have hrevmem : tdef ∈ reversedTables cfg := by
    unfold reversedTables
    exact List.mem_reverse.mpr hmem
  have hcollect' : (reversedTables cfg).foldlM
      (collectTable cfg (fun _ => false) sess.db) ⟨0, []⟩ = .ok cst := hcollect
  have hfacts := collect_fold_inv cfg (fun _ => false) sess.db (reversedTables cfg)
    ⟨0, []⟩ cst (fun t' ht' => List.mem_reverse.mp ht')
    (fun name pks h => absurd h (by simp [pksMapFind?]))
    hcollect' tdef.name pks hfind
  obtain ⟨hSnodup, hSmem⟩ := hfacts
  have hsubS : ∀ pk ∈ pks, pk ∈ (dbRows sess.db tdef.name).map (pkTupleOf tdef.primary_key) := by
    intro pk hpk
    obtain ⟨tdef', hmem', hname, r, hr, hpk'⟩ := hSmem pk hpk
    have heq : tdef' = tdef := List.inj_on_of_nodup_map hnodup hmem' hmem hname
    subst heq
    rw [List.mem_map]
    exact ⟨r, hr, hpk'.symm⟩
  have hdbreal : dbRows (TenantDeleter.delete cfg (fun _ => false) sess false c).sess.db
      tdef.name =
      (dbRows sess.db tdef.name).filter
        (fun r => !pks.contains (pkTupleOf tdef.primary_key r)) := by
    rw [hout_real]
    cases c with
    | true =>
      exact foldTables_db_main cfg cst.pks tdef pks (reversedTables cfg)
        ⟨cst.count, sess.db, []⟩ hrevnodup hrevmem hfind
    | false =>
      exact foldTables_db_main cfg cst.pks tdef pks (reversedTables cfg)
        ⟨cst.count, sess.db, []⟩ hrevnodup hrevmem hfind
  have hcount := rows_count (dbRows sess.db tdef.name) tdef.primary_key pks
    (hrowpks tdef hmem) hSnodup hsubS
  rw [hdbreal]
  exact hcount

/-- C4 witness: the end-to-end fixture, dry run versus real run, with the
`users` table reporting exactly the two rows the real run deletes. -/
theorem c4_witness :
    (TenantDeleter.delete e2eCfg (fun _ => false) e2eSess true true).sess = e2eSess ∧
    (TenantDeleter.delete e2eCfg (fun _ => false) e2eSess true true).result = .ok () ∧
    (TenantDeleter.delete e2eCfg (fun _ => false) e2eSess true true).stmts = [] ∧
    (TenantDeleter.delete e2eCfg (fun _ => false) e2eSess true true).report =
      some (e2eCst.pks.map (fun p => (p.1, p.2.length))) ∧
    (TenantDeleter.delete e2eCfg (fun _ => false) e2eSess false true).result = .ok () ∧
    (dbRows (TenantDeleter.delete e2eCfg (fun _ => false) e2eSess false true).sess.db
        usersT.name).length + e2eUsersPks.length =
      (dbRows e2eSess.db usersT.name).length := by
  obtain ⟨h1, h2, h3, h4, h5, h6⟩ :=
    c4_dry_run e2eCfg e2eSess true e2eCst (by decide) (by decide) (by decide)
  exact ⟨h1, h2, h3, h4, h5, h6 usersT (by decide) e2eUsersPks (by decide)⟩

/-! ## C2: union-of-paths semantics -/

theorem pathSelect_some_step (cfg : TenantWiperConfig) (t : TableDef) (p : String)
    (sq : SelectQ) (h : pathSelect cfg t p = some sq) (acc : List SelectQ) :
    pathLoopStep cfg t acc p = .ok (acc ++ [sq]) := by
  unfold pathSelect at h
  unfold pathLoopStep
  cases hp : _parse_join_path p with
  | error e =>
    rw [hp] at h
    have h' : (none : Option SelectQ) = some sq := h
    simp at h'
  | ok parsed =>
    rw [hp] at h
    have h₁ : (if (parsed.start_table == t.name) = true then
        (match checkStepTables cfg.base.metadata parsed.steps with
        | .error _ => (none : Option SelectQ)
        | .ok _ =>
          match cfg.base.metadata.tablesFind? parsed.final_table with
          | none => none
          | some ft =>
            match applicableFilters cfg.tenant_filters ft with
            | .error _ => none
            | .ok ffs =>
              if ffs.isEmpty then none
              else some ⟨t.name, t.primary_key, parsed.steps, ffs⟩)
      else none) = some sq := h
    show (if (parsed.start_table == t.name) = true then
        (match checkStepTables cfg.base.metadata parsed.steps with
        | .error e => (.error e : Except DeleteError (List SelectQ))
        | .ok _ =>
          match cfg.base.metadata.tablesFind? parsed.final_table with
          | none => .error (.pythonKeyError parsed.final_table)
          | some ft =>
            match applicableFilters cfg.tenant_filters ft with
            | .error e => .error e
            | .ok ffs =>
              if ffs.isEmpty then .ok acc
              else .ok (acc ++ [(⟨t.name, t.primary_key, parsed.steps, ffs⟩ : SelectQ)]))
      else .ok acc) = .ok (acc ++ [sq])
    by_cases hstart : (parsed.start_table == t.name) = true
    · rw [if_pos hstart] at h₁ ⊢
      cases hchk : checkStepTables cfg.base.metadata parsed.steps with
      | error e =>
        rw [hchk] at h₁
        have h₂ : (none : Option SelectQ) = some sq := h₁
        simp at h₂
      | ok u =>
        rw [hchk] at h₁
        cases hft : cfg.base.metadata.tablesFind? parsed.final_table with
        | none =>
          rw [hft] at h₁
          have h₂ : (none : Option SelectQ) = some sq := h₁
          simp at h₂
        | some ft =>
          rw [hft] at h₁
          have h₁a : (match applicableFilters cfg.tenant_filters ft with
              | Except.error _ => (none : Option SelectQ)
              | Except.ok ffs =>
                if ffs.isEmpty = true then none
                else some ⟨t.name, t.primary_key, parsed.steps, ffs⟩) = some sq := h₁
          show (match applicableFilters cfg.tenant_filters ft with
              | Except.error e => (Except.error e : Except DeleteError (List SelectQ))
              | Except.ok ffs =>
                if ffs.isEmpty = true then Except.ok acc
                else Except.ok (acc ++
                  [(⟨t.name, t.primary_key, parsed.steps, ffs⟩ : SelectQ)])) =
            .ok (acc ++ [sq])
          cases happ : applicableFilters cfg.tenant_filters ft with
          | error e =>
            rw [happ] at h₁a
            have h₂ : (none : Option SelectQ) = some sq := h₁a
            simp at h₂
          | ok ffs =>
            rw [happ] at h₁a
            have h₂ : (if ffs.isEmpty = true then (none : Option SelectQ)
                else some ⟨t.name, t.primary_key, parsed.steps, ffs⟩) = some sq := h₁a
            by_cases hffs : ffs.isEmpty = true
            · rw [if_pos hffs] at h₂
              simp at h₂
            · rw [if_neg hffs] at h₂
              injection h₂ with h₂
              show (if ffs.isEmpty = true then
                  (Except.ok acc : Except DeleteError (List SelectQ))
                else .ok (acc ++
                  [(⟨t.name, t.primary_key, parsed.steps, ffs⟩ : SelectQ)])) =
                .ok (acc ++ [sq])
              rw [if_neg hffs, h₂]
    · rw [if_neg hstart] at h₁
      have h₂ : (none : Option SelectQ) = some sq := h₁
      simp at h₂

theorem pathLoop_filterMap (cfg : TenantWiperConfig) (t : TableDef) :
    ∀ (ps : List String) (acc : List SelectQ),
    (∀ p ∈ ps, (pathSelect cfg t p).isSome) →
    ps.foldlM (pathLoopStep cfg t) acc = .ok (acc ++ ps.filterMap (pathSelect cfg t))
  | [], acc, _ => by
    simp only [List.foldlM_nil, List.filterMap_nil, List.append_nil]
    rfl
  | p :: ps, acc, hall => by
    obtain ⟨sq, hsq⟩ := Option.isSome_iff_exists.mp (hall p (List.mem_cons_self p ps))
    rw [List.foldlM_cons, pathSelect_some_step cfg t p sq hsq acc]
    have hrec := pathLoop_filterMap cfg t ps (acc ++ [sq])
      (fun q hq => hall q (List.mem_cons_of_mem p hq))
    show ps.foldlM (pathLoopStep cfg t) (acc ++ [sq]) = _
    rw [hrec]
    rw [List.filterMap_cons, hsq]
    simp

theorem filterMap_all_some_length {α β : Type} (f : α → Option β) :
    ∀ (l : List α), (∀ a ∈ l, (f a).isSome) → (l.filterMap f).length = l.length
  | [], _ => rfl
  | a :: l, hall => by
    obtain ⟨b, hb⟩ := Option.isSome_iff_exists.mp (hall a (List.mem_cons_self a l))
    rw [List.filterMap_cons, hb]
    simp [filterMap_all_some_length f l (fun x hx => hall x (List.mem_cons_of_mem a hx))]

theorem evalSelect_mem_iff (db : Database) (sq : SelectQ) (pk : PKTuple) :
    pk ∈ evalSelect db sq ↔
      ∃ pr ∈ sq.steps.foldl (joinStep1 db) ((dbRows db sq.table).map (fun r => (r, r))),
        sq.whereOr.any (fun e => e.eval pr.2) = true ∧ pk = pkTupleOf sq.pk_cols pr.1 := by
  unfold evalSelect
  simp only [List.mem_map, List.mem_filter]
  constructor
  · rintro ⟨pr, ⟨hmem, hany⟩, rfl⟩
    exact ⟨pr, hmem, hany, rfl⟩
  · rintro ⟨pr, hmem, hany, rfl⟩
    exact ⟨pr, ⟨hmem, hany⟩, rfl⟩

/-- C2: for a table with a primary key, no applicable direct tenant
filter, and more than one declared join path, all of which build
successfully, `_build_pk_collection_query` produces the union of the
per-path selects (in declaration order), and a primary-key tuple is
selected if and only if some start row carrying it joins, along at least
one declared path, to a terminal row satisfying one of the tenant filters
applicable to that terminal table; the union deduplicates, so a tuple
reached by several paths appears once. -/
theorem c2_union_of_paths (cfg : TenantWiperConfig) (tdef : TableDef)
    (paths : List String)
    (hpk : tdef.primary_key.isEmpty = false)
    (hnodirect : applicableFilters cfg.tenant_filters tdef = .ok [])
    (hrel : dictFind? cfg.relationshipDict tdef.name = some paths)
    (hlen : 1 < paths.length)
    (hall : ∀ p ∈ paths, (pathSelect cfg tdef p).isSome) :
    ∃ first rest,
      _build_pk_collection_query cfg tdef = .ok (some (.unionQ first rest)) ∧
      first :: rest = paths.filterMap (pathSelect cfg tdef) ∧
      (evalPKQuery · (.unionQ first rest)) = (fun db =>
        (evalSelect db first ++ rest.flatMap (evalSelect db)).dedup) ∧
      ∀ db pk, pk ∈ evalPKQuery db (.unionQ first rest) ↔
        ∃ p ∈ paths, ∃ sq, pathSelect cfg tdef p = some sq ∧
          ∃ pr ∈ sq.steps.foldl (joinStep1 db)
              ((dbRows db tdef.name).map (fun r => (r, r))),
            sq.whereOr.any (fun e => e.eval pr.2) = true ∧
            pk = pkTupleOf tdef.primary_key pr.1 := by
  have hfold := pathLoop_filterMap cfg tdef paths [] hall
  simp only [List.nil_append] at hfold
  have hflen : (paths.filterMap (pathSelect cfg tdef)).length = paths.length :=
    filterMap_all_some_length _ paths hall
  obtain ⟨q0, tl0, hq⟩ : ∃ q0 tl0, paths.filterMap (pathSelect cfg tdef) = q0 :: tl0 := by
    cases hc : paths.filterMap (pathSelect cfg tdef) with
    | nil => rw [hc] at hflen; simp at hflen; omega
    | cons a l => exact ⟨a, l, rfl⟩
  obtain ⟨q1, qs, htl⟩ : ∃ q1 qs, tl0 = q1 :: qs := by
    cases hc : tl0 with
    | nil => rw [hc] at hq; rw [hq] at hflen; simp at hflen; omega
    | cons a l => exact ⟨a, l, rfl⟩
  subst htl
  have hbuild : _build_pk_collection_query cfg tdef = .ok (some (.unionQ q0 (q1 :: qs))) := by
    unfold _build_pk_collection_query
    rw [hpk, if_neg Bool.false_ne_true, hnodirect]
    show (match dictFind? cfg.relationshipDict tdef.name with
      | none => (Except.ok none : Except DeleteError (Option PKQuery))
      | some path_strings =>
        match path_strings.foldlM (pathLoopStep cfg tdef) [] with
        | .error e => .error e
        | .ok path_queries =>
          match path_queries with
          | [] => .ok none
          | [q] => .ok (some (.single q))
          | q :: qs => .ok (some (.unionQ q qs))) = _
    rw [hrel]
    show (match paths.foldlM (pathLoopStep cfg tdef) [] with
        | .error e => (.error e : Except DeleteError (Option PKQuery))
        | .ok path_queries =>
          match path_queries with
          | [] => .ok none
          | [q] => .ok (some (.single q))
          | q :: qs => .ok (some (.unionQ q qs))) = _
    rw [hfold, hq]
  have hshape : ∀ sq ∈ q0 :: q1 :: qs,
      sq.table = tdef.name ∧ sq.pk_cols = tdef.primary_key := by
    intro sq hsqmem
    have hsq' : sq ∈ paths.filterMap (pathSelect cfg tdef) := by rw [hq]; exact hsqmem
    obtain ⟨p, hp, hps⟩ := List.mem_filterMap.mp hsq'
    have hstep := pathSelect_some_step cfg tdef p sq hps []
    rcases pathLoopStep_sub cfg tdef [] p ([] ++ [sq]) hstep sq (by simp) with h1 | h2
    · simp at h1
    · exact h2
  refine ⟨q0, q1 :: qs, hbuild, hq.symm, rfl, ?_⟩
  intro db pk
  constructor
  · intro hmem
    unfold evalPKQuery at hmem
    rw [List.mem_dedup, List.mem_append, List.mem_flatMap] at hmem
    have hex : ∃ sq ∈ q0 :: q1 :: qs, pk ∈ evalSelect db sq := by
      rcases hmem with h | ⟨sq, hsq, h⟩
      · exact ⟨q0, by simp, h⟩
      · exact ⟨sq, by simp [hsq], h⟩
    obtain ⟨sq, hsqmem, hsel⟩ := hex
    have hsq' : sq ∈ paths.filterMap (pathSelect cfg tdef) := by rw [hq]; exact hsqmem
    obtain ⟨p, hp, hps⟩ := List.mem_filterMap.mp hsq'
    obtain ⟨htab, hpkc⟩ := hshape sq hsqmem
    rw [evalSelect_mem_iff] at hsel
    obtain ⟨pr, hpr, hany, hpk2⟩ := hsel
    rw [htab] at hpr
    rw [hpkc] at hpk2
    exact ⟨p, hp, sq, hps, pr, hpr, hany, hpk2⟩
  · rintro ⟨p, hp, sq, hps, pr, hpr, hany, hpk2⟩
    have hsq' : sq ∈ paths.filterMap (pathSelect cfg tdef) :=
      List.mem_filterMap.mpr ⟨p, hp, hps⟩
    have hsqmem : sq ∈ q0 :: q1 :: qs := by rw [← hq]; exact hsq'
    obtain ⟨htab, hpkc⟩ := hshape sq hsqmem
    have hsel : pk ∈ evalSelect db sq := by
      rw [evalSelect_mem_iff, htab, hpkc]
      exact ⟨pr, hpr, hany, hpk2⟩
    unfold evalPKQuery
    rw [List.mem_dedup, List.mem_append, List.mem_flatMap]
    rcases List.mem_cons.mp hsqmem with heq | htlm
    · rw [← heq]
      exact Or.inl hsel
    · exact Or.inr ⟨sq, htlm, hsel⟩

/-- C2 witness: the `emp` table with its two declared paths to
`companies` and `departments`. -/
theorem c2_witness :
    ∃ first rest,
      _build_pk_collection_query c2Cfg c2Table = .ok (some (.unionQ first rest)) ∧
      first :: rest =
        ["emp__cid=id__companies", "emp__did=id__departments"].filterMap
          (pathSelect c2Cfg c2Table) ∧
      (evalPKQuery · (.unionQ first rest)) = (fun db =>
        (evalSelect db first ++ rest.flatMap (evalSelect db)).dedup) ∧
      ∀ db pk, pk ∈ evalPKQuery db (.unionQ first rest) ↔
        ∃ p ∈ ["emp__cid=id__companies", "emp__did=id__departments"], ∃ sq,
          pathSelect c2Cfg c2Table p = some sq ∧
          ∃ pr ∈ sq.steps.foldl (joinStep1 db)
              ((dbRows db c2Table.name).map (fun r => (r, r))),
            sq.whereOr.any (fun e => e.eval pr.2) = true ∧
            pk = pkTupleOf c2Table.primary_key pr.1 :=
  c2_union_of_paths c2Cfg c2Table ["emp__cid=id__companies", "emp__did=id__departments"]
    (by decide) (by decide) (by decide) (by decide) (by decide)

/-- C10 witness: `brokenAttrKey` raising against a concrete table is
dropped from the gathered filters without an error, yet the validation
probe rejects it. -/
theorem c10_witness :
    applyFilterReal .brokenAttrKey ⟨"users", ["id"], ["id"]⟩ = .attrKeyErr ∧
    applicableFilters [.wellFormed (.eqConst "id" 1), .brokenAttrKey]
        ⟨"users", ["id"], ["id"]⟩ =
      applicableFilters [.wellFormed (.eqConst "id" 1)] ⟨"users", ["id"], ["id"]⟩ ∧
    _can_apply_tenant_filter ⟨"users", ["id"], ["id"]⟩ .brokenAttrKey =
      .error .filterSyntax := by
  have h := c10_attr_key_skipped ⟨"users", ["id"], ["id"]⟩
    [.wellFormed (.eqConst "id" 1)] [] .brokenAttrKey (by decide)
  exact ⟨by decide, h.1, h.2 rfl⟩
